import Mathlib

/-
Verification of the pop-os/opt build-orchestration pipeline.

The Rust sources are shallowly embedded:
  * src/lib.rs   : status_err
  * src/pkg.rs   : source_values, Pkg::source, Pkg::sbuild_thread, the
                   version-selection loop of Pkg::build
  * src/main.rs  : the build driver loop and the pool hard-link aggregation
  * src/arch.rs  : the Arch profile (its level field is absent from src and is
                   modelled from the spec)
External commands (schroot/apt-get, dpkg-source, cp, patch, dch, sbuild,
dpkg --compare-versions) are modelled by environments supplying their exit
statuses and produced files; every stage function additionally returns the
list of commands it invoked, so that cache hits can be proved to run nothing.
Filesystem state is modelled per stage directory as an optional list of entry
names (none = the directory does not exist).
-/

namespace PopOpt

/-- Error kinds of std::io::ErrorKind that the sources construct. -/
inductive IoErrKind where
  | notFound
  | alreadyExists
  | invalidData
  | other
deriving DecidableEq, Repr

/-- An io::Error value: kind plus message. -/
structure IoError where
  kind : IoErrKind
  msg : String
deriving DecidableEq, Repr

instance {ε α : Type} [DecidableEq ε] [DecidableEq α] : DecidableEq (Except ε α) := fun a b =>
  match a, b with
  | .ok x, .ok y =>
    if h : x = y then .isTrue (by rw [h]) else .isFalse (fun hc => h (Except.ok.inj hc))
  | .error x, .error y =>
    if h : x = y then .isTrue (by rw [h]) else .isFalse (fun hc => h (Except.error.inj hc))
  | .ok _, .error _ => .isFalse (fun hc => Except.noConfusion hc)
  | .error _, .ok _ => .isFalse (fun hc => Except.noConfusion hc)

/-- External command invocations, recorded as a trace by the stage
functions.  Each constructor names the program and the arguments that the
Rust code passes (src/pkg.rs). -/
inductive Cmd where
  | schrootAptGetSource (dist shareName pkgName version : String)
  | dpkgSourceExtract (dscFile destDir cwd : String)
  | cpArchive (srcDir destDir cwd : String)
  | patch (patchFile cwd : String)
  | dch (dist newVersion cwd : String)
  | dpkgSourceBuild (dir cwd : String)
  | sbuild (arch : String) (archAll : Bool) (dscFile cwd : String)
deriving DecidableEq, Repr

/-- src/arch.rs: Arch profile.  The field `level` does not appear in the
struct in src/arch.rs, but src/pkg.rs line 78 reads `config.arch.level`.
Modelled from the spec: section 6 specifies the ArchitectureProfile
collaborator as supplying `level: integer` (the numeric optimization tier). -/
structure Arch where
  name : String
  wiki : String
  features : List String
  level : Nat
deriving DecidableEq, Repr

/-- src/arch.rs: Arch::cflags. -/
def Arch.cflags (a : Arch) : List String :=
  ["-march=" ++ a.name]

/-- src/arch.rs: Arch::rustflags. -/
def Arch.rustflags (a : Arch) : List String :=
  ["--codegen", "target-cpu=" ++ a.name]

/-- src/arch.rs: Arch::check_features. -/
def Arch.check_features (a : Arch) (cpu_features : List String) : Except (List String) Unit :=
  let missing := a.features.filter (fun x => ¬ cpu_features.contains x)
  if missing.isEmpty then .ok () else .error missing

/-- src/pkg.rs: struct Pkg. -/
structure Pkg where
  name : String
  patches : List String
deriving DecidableEq, Repr

/-- src/pkg.rs: struct Config (the BuildContext). -/
structure Config where
  arch : Arch
  dist : String
  version : String
  dir : String
  rebuild : Bool
  retry : Bool
deriving DecidableEq, Repr

/-- src/lib.rs: status_err, applied to a process exit code.  A nonzero exit
status becomes an io::Error of kind Other. -/
def status_err (code : Nat) : Except IoError Unit :=
  if code = 0 then .ok ()
  else .error ⟨.other, "exited with status " ++ toString code⟩

/-- Split a list of characters at every occurrence of the separator. -/
def splitOnChar (sep : Char) : List Char → List (List Char)
  | [] => [[]]
  | c :: cs =>
    let r := splitOnChar sep cs
    if c = sep then [] :: r
    else
      match r with
      | [] => [[c]]
      | l :: ls => (c :: l) :: ls

/-- Rust str::lines on the character list of a string: split at every
newline, drop a final empty segment produced by a trailing newline, and
strip one trailing carriage return from each line. -/
def rustLines (s : String) : List (List Char) :=
  let segs := splitOnChar (Char.ofNat 10) s.data
  let segs :=
    match segs.getLast? with
    | some [] => segs.dropLast
    | _ => segs
  segs.map (fun l =>
    match l.getLast? with
    | some c => if c = Char.ofNat 13 then l.dropLast else l
    | none => l)

/-- src/pkg.rs lines 33-51: source_values.  Collect the remainder of every
line of `source` that starts with `key ++ ": "`; error of kind NotFound when
no line matches. -/
def source_values (source key : String) : Except IoError (List String) :=
  let key_sep := (key ++ ": ").data
  let values := (rustLines source).filterMap (fun line =>
    if key_sep.isPrefixOf line then some (String.mk (line.drop key_sep.length))
    else none)
  if values.isEmpty then
    .error ⟨.notFound, "failed to find " ++ key ++ " key in source"⟩
  else
    .ok values

/-- The version-selection loop of src/pkg.rs lines 311-324: start from
versions[0] and replace the running maximum whenever the external
`dpkg --compare-versions other gt current` query exits 0 (modelled by the
boolean oracle `gt`).  The empty case (where the Rust indexing would panic)
yields none. -/
def select_version (gt : String → String → Bool) (versions : List String) : Option String :=
  match versions with
  | [] => none
  | v :: _ =>
    some (versions.foldl (fun ver other => if gt other ver then other else ver) v)

/-- The running-maximum fold of the selection loop, with explicit start. -/
def maxSel (gt : String → String → Bool) (init : String) (xs : List String) : String :=
  xs.foldl (fun ver other => if gt other ver then other else ver) init

/-- src/pkg.rs lines 311-324 as one operation: parse the Version values out
of the metadata listing and select one; none models the out-of-bounds panic
of `&versions[0]`. -/
def resolveVersion (gt : String → String → Bool) (source : String) :
    Option (Except IoError String) :=
  match source_values source "Version" with
  | .error e => some (.error e)
  | .ok versions => (select_version gt versions).map .ok

/-- Three-way comparison on Int (explicit, so proofs can unfold it). -/
def intCmp (x y : Int) : Ordering :=
  if x < y then .lt else if y < x then .gt else .eq

/-- Three-way comparison on Nat. -/
def natCmp (m n : Nat) : Ordering :=
  if m < n then .lt else if n < m then .gt else .eq

/-- Modelled from the spec: the external `dpkg --compare-versions` ordering
(sections 4.1 and 4.3 rely on packaging version ordering; dpkg itself is an
external collaborator, absent from src/).  Character weight used when
comparing non-digit chunks: digits act as chunk terminators (weight 0, the
same as end of string), letters weigh their code point, `~` sorts below
everything including the empty rest, all other characters sort above all
letters. -/
def charOrder (c : Char) : Int :=
  if c.isDigit then 0
  else if c.isAlpha then (c.toNat : Int)
  else if c = '~' then -1
  else (c.toNat : Int) + 256

/-- Numeric value of a digit string (most significant digit first). -/
def natOfDigits (ds : List Char) : Nat :=
  ds.foldl (fun n c => 10 * n + (c.toNat - 48)) 0

/-- Split a version fragment into alternating (non-digit chunk, numeric
value) pairs, fuelled so that the definition is structural (the fuel is
always instantiated with the length of the list, which suffices). -/
def parseChunksF : Nat → List Char → List (List Char × Nat)
  | 0, _ => []
  | _, [] => []
  | fuel + 1, c :: cs =>
    let nd := (c :: cs).takeWhile (fun x => !x.isDigit)
    let rest := (c :: cs).dropWhile (fun x => !x.isDigit)
    let d := rest.takeWhile Char.isDigit
    let rest2 := rest.dropWhile Char.isDigit
    (nd, natOfDigits d) :: parseChunksF fuel rest2

/-- Chunk decomposition of a version fragment. -/
def parseChunks (l : List Char) : List (List Char × Nat) :=
  parseChunksF l.length l

/-- Compare the end of one chunk (weight 0 per missing character) against
the rest of the other chunk. -/
def cmpNDnil : List Char → Ordering
  | [] => .eq
  | b :: bs =>
    match intCmp 0 (charOrder b) with
    | .eq => cmpNDnil bs
    | o => o

/-- Compare two non-digit chunks character-wise by charOrder, treating a
missing character as weight 0. -/
def cmpND : List Char → List Char → Ordering
  | [], bs => cmpNDnil bs
  | as', [] => (cmpNDnil as').swap
  | a :: as', b :: bs =>
    match intCmp (charOrder a) (charOrder b) with
    | .eq => cmpND as' bs
    | o => o

/-- Compare the empty chunk list against a chunk list (padding with the
empty chunk: empty non-digit part, numeric value 0). -/
def cmpChunksNil : List (List Char × Nat) → Ordering
  | [] => .eq
  | (nd, n) :: ys =>
    match cmpND [] nd with
    | .eq =>
      match natCmp 0 n with
      | .eq => cmpChunksNil ys
      | o => o
    | o => o

/-- Compare two chunk lists lexicographically, padding the shorter list with
the empty chunk. -/
def cmpChunks : List (List Char × Nat) → List (List Char × Nat) → Ordering
  | [], ys => cmpChunksNil ys
  | xs, [] => (cmpChunksNil xs).swap
  | (a, m) :: xs, (b, n) :: ys =>
    match cmpND a b with
    | .eq =>
      match natCmp m n with
      | .eq => cmpChunks xs ys
      | o => o
    | o => o

/-- Split off the epoch: the (numeric) part before the first colon, when a
colon is present; the remainder is the rest of the version. -/
def epochSplit (v : List Char) : Nat × List Char :=
  if ':' ∈ v then
    (natOfDigits ((v.takeWhile (fun c => c != ':')).takeWhile Char.isDigit),
     (v.dropWhile (fun c => c != ':')).tail)
  else
    (0, v)

/-- Split upstream version and Debian revision at the last hyphen; a version
without a hyphen has the empty revision. -/
def revSplit (v : List Char) : List Char × List Char :=
  if '-' ∈ v then
    (((v.reverse.dropWhile (fun c => c != '-')).tail).reverse,
     (v.reverse.takeWhile (fun c => c != '-')).reverse)
  else
    (v, [])

/-- Modelled from the spec: full dpkg version comparison — epoch numerically,
then upstream version, then revision, each fragment by chunkwise
comparison. -/
def debCmp (a b : String) : Ordering :=
  let ea := epochSplit a.data
  let eb := epochSplit b.data
  match natCmp ea.1 eb.1 with
  | .eq =>
    let ua := revSplit ea.2
    let ub := revSplit eb.2
    match cmpChunks (parseChunks ua.1) (parseChunks ub.1) with
    | .eq => cmpChunks (parseChunks ua.2) (parseChunks ub.2)
    | o => o
  | o => o

/-- Modelled from the spec: the `dpkg --compare-versions a gt b` oracle. -/
def debGT (a b : String) : Bool :=
  debCmp a b == .gt

/-- src/pkg.rs line 78: the synthetic version
`format!("{}popopt{}", config.version, config.arch.level)`. -/
def new_version (version : String) (level : Nat) : String :=
  version ++ "popopt" ++ toString level

/-- Filesystem state that Pkg::source touches: entry names of the canonical
`<dir>/source` stage directory, of the `<dir>/source.partial` directory and
of the scratch share directory under /var/lib/sbuild/build (none when the
directory does not exist). -/
structure SourceWorld where
  completeDir : Option (List String)
  partDir : Option (List String)
  shareDir : Option (List String)
deriving DecidableEq, Repr

/-- Outcomes of the external commands Pkg::source runs: exit statuses and
the files each tool produces.  `patchStatus` is indexed by patch position;
`canonicalizeOk` tells whether fs::canonicalize finds the patch file. -/
structure SourceEnv where
  aptStatus : Nat
  downloadedFiles : List String
  extractStatus : Nat
  cpStatus : Nat
  canonicalizeOk : String → Bool
  patchStatus : Nat → Nat
  dchStatus : Nat
  dscBuildStatus : Nat
  builtFiles : List String

/-- src/pkg.rs lines 159-167: apply the configured patches in declared
order (fs::canonicalize, then `patch -p1 -i <file>` with the patched copy
as working directory), stopping at the first failure.  Returns the trace of
patch invocations together with the result; `i` is the index of the first
patch of the list within the whole patch sequence. -/
def applyPatches (env : SourceEnv) (patchedDir : String) :
    List String → Nat → List Cmd × Except IoError Unit
  | [], _ => ([], .ok ())
  | p :: rest, i =>
    if env.canonicalizeOk p then
      let c := Cmd.patch p patchedDir
      match status_err (env.patchStatus i) with
      | .error e => ([c], .error e)
      | .ok () =>
        let r := applyPatches env patchedDir rest (i + 1)
        (c :: r.1, r.2)
    else
      ([], .error ⟨.notFound, "No such file or directory"⟩)

/-- src/pkg.rs lines 108-194: the work section of Pkg::source, entered with
no partial directory present.  Creates `source.partial`, runs the download /
extract / copy / patch / changelog / dsc-build commands, and on success
commits by renaming the partial directory to the canonical `source`
directory, then checks that the re-versioned .dsc file exists. -/
def sourceWork (pkg : Pkg) (cfg : Config) (env : SourceEnv) (w : SourceWorld) :
    SourceWorld × List Cmd × Except IoError String :=
  let dir := cfg.dir ++ "/source.partial"
  let complete_dir := cfg.dir ++ "/source"
  let nv := new_version cfg.version cfg.arch.level
  let newDscName := pkg.name ++ "_" ++ nv ++ ".dsc"
  let new_dsc_file := complete_dir ++ "/" ++ newDscName
  let share_name :=
    "popopt_" ++ cfg.arch.name ++ "_" ++ cfg.dist ++ "_" ++ pkg.name ++ "_" ++ cfg.version
  let share_dir := "/var/lib/sbuild/build/" ++ share_name
  -- fs::create_dir(&dir); ensure_dir_clean(share_dir)
  let w := { w with partDir := some [], shareDir := some [] }
  -- schroot ... apt-get source --download-only (populates the share dir)
  let c1 := Cmd.schrootAptGetSource cfg.dist share_name pkg.name cfg.version
  let w := { w with shareDir := some env.downloadedFiles }
  match status_err env.aptStatus with
  | .error e => (w, [c1], .error e)
  | .ok () =>
  let dscName := pkg.name ++ "_" ++ cfg.version ++ ".dsc"
  if dscName ∈ env.downloadedFiles then
    -- dpkg-source --extract <dsc> original (cwd dir)
    let c2 := Cmd.dpkgSourceExtract (share_dir ++ "/" ++ dscName) (dir ++ "/original") dir
    let w := { w with partDir := some ["original"] }
    match status_err env.extractStatus with
    | .error e => (w, [c1, c2], .error e)
    | .ok () =>
    -- fs::remove_dir_all(&share_dir)
    let w := { w with shareDir := none }
    -- cp -a original patched (cwd dir)
    let c3 := Cmd.cpArchive (dir ++ "/original") (dir ++ "/patched") dir
    let w := { w with partDir := some ["original", "patched"] }
    match status_err env.cpStatus with
    | .error e => (w, [c1, c2, c3], .error e)
    | .ok () =>
    -- patch loop (cwd patched)
    match applyPatches env (dir ++ "/patched") pkg.patches 0 with
    | (ptr, .error e) => (w, [c1, c2, c3] ++ ptr, .error e)
    | (ptr, .ok ()) =>
    -- dch --distribution <dist> --newversion <nv> (cwd patched)
    let c4 := Cmd.dch cfg.dist nv (dir ++ "/patched")
    match status_err env.dchStatus with
    | .error e => (w, [c1, c2, c3] ++ ptr ++ [c4], .error e)
    | .ok () =>
    -- dpkg-source --build patched (cwd dir; writes control outputs into dir)
    let c5 := Cmd.dpkgSourceBuild (dir ++ "/patched") dir
    let w := { w with partDir := some (["original", "patched"] ++ env.builtFiles) }
    match status_err env.dscBuildStatus with
    | .error e => (w, [c1, c2, c3] ++ ptr ++ [c4, c5], .error e)
    | .ok () =>
    -- fs::rename(&dir, &complete_dir): the commit point
    let w := { w with completeDir := some (["original", "patched"] ++ env.builtFiles),
                      partDir := none }
    if newDscName ∈ ["original", "patched"] ++ env.builtFiles then
      (w, [c1, c2, c3] ++ ptr ++ [c4, c5], .ok new_dsc_file)
    else
      (w, [c1, c2, c3] ++ ptr ++ [c4, c5],
       .error ⟨.notFound, "failed to find DSC file " ++ new_dsc_file⟩)
  else
    (w, [c1], .error ⟨.notFound, "failed to find DSC file " ++ share_dir ++ "/" ++ dscName⟩)

/-- src/pkg.rs lines 93-106: the partial-directory check of Pkg::source,
reached when the canonical directory did not short-circuit. -/
def sourceAfterCache (pkg : Pkg) (cfg : Config) (env : SourceEnv) (w : SourceWorld) :
    SourceWorld × List Cmd × Except IoError String :=
  match w.partDir with
  | some _ =>
    if cfg.retry then
      -- fs::remove_dir_all(&dir)
      sourceWork pkg cfg env { w with partDir := none }
    else
      (w, [],
       .error ⟨.alreadyExists,
         cfg.dir ++ "/source.partial already exists, build is in progress or already failed"⟩)
  | none => sourceWork pkg cfg env w

/-- src/pkg.rs lines 76-195: Pkg::source.  Canonical-directory check (cache
hit, missing-dsc failure, or rebuild discard), then the partial check, then
the work section. -/
def Pkg.source (pkg : Pkg) (cfg : Config) (env : SourceEnv) (w : SourceWorld) :
    SourceWorld × List Cmd × Except IoError String :=
  let complete_dir := cfg.dir ++ "/source"
  let nv := new_version cfg.version cfg.arch.level
  let newDscName := pkg.name ++ "_" ++ nv ++ ".dsc"
  let new_dsc_file := complete_dir ++ "/" ++ newDscName
  match w.completeDir with
  | some files =>
    if cfg.rebuild then
      -- fs::remove_dir_all(&complete_dir)
      sourceAfterCache pkg cfg env { w with completeDir := none }
    else if newDscName ∈ files then
      (w, [], .ok new_dsc_file)
    else
      (w, [], .error ⟨.notFound, "failed to find DSC file " ++ new_dsc_file⟩)
  | none => sourceAfterCache pkg cfg env w

/-- Filesystem state that Pkg::sbuild_thread touches for one target
architecture: entry names of the canonical `<dir>/sbuild-<arch>` directory
and of `<dir>/sbuild-<arch>.partial`. -/
structure SbuildWorld where
  completeDir : Option (List String)
  partDir : Option (List String)
deriving DecidableEq, Repr

/-- Outcome of the external sbuild invocation: its exit status and the
artifact files it writes into its working directory. -/
structure SbuildEnv where
  sbuildStatus : Nat
  artifacts : List String

/-- The value returned by Pkg::sbuild_thread inside Ok: a join handle.
`cached` joins to Ok(complete_dir) immediately (canonical directory already
present); `failedEarly` joins to the already-in-progress error; `run` is a
real worker that runs the sbuild command and then commits by rename. -/
inductive Spawned where
  | cached (dir : String)
  | failedEarly (e : IoError)
  | run (dir complete_dir : String) (c : Cmd)
deriving DecidableEq, Repr

/-- src/pkg.rs lines 226-272: the spawn section of Pkg::sbuild_thread,
entered with no partial directory present: fs::create_dir, write
sbuild.conf, construct the sbuild command, spawn the worker. -/
def sbuildSpawnWork (source_dsc sbuild_arch : String) (cfg : Config) (w : SbuildWorld) :
    SbuildWorld × Except IoError Spawned :=
  let dir := cfg.dir ++ "/sbuild-" ++ sbuild_arch ++ ".partial"
  let complete_dir := cfg.dir ++ "/sbuild-" ++ sbuild_arch
  let w := { w with partDir := some ["sbuild.conf"] }
  (w, .ok (.run dir complete_dir
    (Cmd.sbuild sbuild_arch (sbuild_arch == "amd64") source_dsc dir)))

/-- src/pkg.rs lines 209-224: the partial-directory check of
Pkg::sbuild_thread. -/
def sbuildAfterCache (source_dsc sbuild_arch : String) (cfg : Config) (w : SbuildWorld) :
    SbuildWorld × Except IoError Spawned :=
  match w.partDir with
  | some _ =>
    if cfg.retry then
      sbuildSpawnWork source_dsc sbuild_arch cfg { w with partDir := none }
    else
      (w, .ok (.failedEarly ⟨.alreadyExists,
        cfg.dir ++ "/sbuild-" ++ sbuild_arch ++
          ".partial already exists, build is in progress or already failed"⟩))
  | none => sbuildSpawnWork source_dsc sbuild_arch cfg w

/-- src/pkg.rs lines 197-273: Pkg::sbuild_thread.  Canonical-directory
check (cached thread or rebuild discard), then partial check, then spawn. -/
def Pkg.sbuild_thread (source_dsc sbuild_arch : String) (cfg : Config) (w : SbuildWorld) :
    SbuildWorld × Except IoError Spawned :=
  let complete_dir := cfg.dir ++ "/sbuild-" ++ sbuild_arch
  match w.completeDir with
  | some _ =>
    if cfg.rebuild then
      sbuildAfterCache source_dsc sbuild_arch cfg { w with completeDir := none }
    else
      (w, .ok (.cached complete_dir))
  | none => sbuildAfterCache source_dsc sbuild_arch cfg w

/-- Joining a spawned sbuild worker (the closures of src/pkg.rs lines 203,
214 and 264): a real worker runs the sbuild command (artifacts appear in
the partial directory) and on success commits by renaming the partial
directory to the canonical one. -/
def sbuildJoin (sp : Spawned) (env : SbuildEnv) (w : SbuildWorld) :
    SbuildWorld × List Cmd × Except IoError String :=
  match sp with
  | .cached dir => (w, [], .ok dir)
  | .failedEarly e => (w, [], .error e)
  | .run _dir complete_dir c =>
    let w := { w with partDir := w.partDir.map (· ++ env.artifacts) }
    match status_err env.sbuildStatus with
    | .error e => (w, [c], .error e)
    | .ok () =>
      -- fs::rename(&dir, &complete_dir): the commit point
      ({ completeDir := w.partDir, partDir := none }, [c], .ok complete_dir)

/-- Driver-level environment (src/main.rs build): the result of
Pkg::build for each package — Err aborts the driver via `?`, Ok carries the
join results of the per-architecture workers — and the directory listing
used to enumerate artifacts of a committed stage directory. -/
structure DriverEnv where
  buildRes : String → Except IoError (List (Except IoError String))
  dirFiles : String → List String

/-- src/main.rs lines 60-65: the `.deb` entries of a committed sbuild
directory. -/
def debFiles (env : DriverEnv) (dir : String) : List String :=
  (env.dirFiles dir).filter (fun f => ".deb".data.isSuffixOf f.data)

/-- src/main.rs lines 57-70: join the per-architecture workers of one
package, collecting the `.deb` artifacts of every Ok worker and the error
of every Err worker (which the code prints and moves past). -/
def joinThreads (env : DriverEnv) : List (Except IoError String) → List String × List IoError
  | [] => ([], [])
  | t :: ts =>
    let r := joinThreads env ts
    match t with
    | .ok sbuild_dir => (debFiles env sbuild_dir ++ r.1, r.2)
    | .error e => (r.1, e :: r.2)

/-- src/main.rs lines 72-78: pool aggregation of one artifact file — create
the hard link `pool/<pkg>/<file>` only when no entry of that name exists. -/
def poolLink (pool : List (String × String)) (pkgName fname : String) :
    List (String × String) :=
  if (pkgName, fname) ∈ pool then pool else pool ++ [(pkgName, fname)]

/-- Pool aggregation of all artifacts of one package. -/
def poolAdd (pool : List (String × String)) (pkgName : String) (debs : List String) :
    List (String × String) :=
  debs.foldl (fun p f => poolLink p pkgName f) pool

/-- src/main.rs lines 44-53: the spawn loop of the driver.  `?` on
Pkg::build makes the first package-level error abort the whole loop. -/
def spawnAll (env : DriverEnv) :
    List Pkg → Except IoError (List (String × List (Except IoError String)))
  | [] => .ok []
  | p :: rest =>
    match env.buildRes p.name with
    | .error e => .error e
    | .ok threads =>
      match spawnAll env rest with
      | .error e => .error e
      | .ok items => .ok ((p.name, threads) :: items)

/-- src/main.rs lines 55-80: the join loop of the driver — per package,
join the workers, report the failures, and hard-link the artifacts into the
pool.  Returns the per-package failure reports and the final pool. -/
def driverJoin (env : DriverEnv) (pool : List (String × String)) :
    List (String × List (Except IoError String)) →
      List (String × IoError) × List (String × String)
  | [] => ([], pool)
  | (name, threads) :: rest =>
    let j := joinThreads env threads
    let pool1 := poolAdd pool name j.1
    let r := driverJoin env pool1 rest
    (j.2.map (fun e => (name, e)) ++ r.1, r.2)

/-- src/main.rs lines 41-80: the driver's build phase over all packages:
spawn every package's build (aborting on the first package-level error),
then join and aggregate. -/
def buildDriver (env : DriverEnv) (pkgs : List Pkg) (pool : List (String × String)) :
    Except IoError (List (String × IoError) × List (String × String)) :=
  match spawnAll env pkgs with
  | .error e => .error e
  | .ok items => .ok (driverJoin env pool items)

/-! Concrete sample inputs used by witness and counterexample theorems. -/

/-- Sample package. -/
def fooPkg : Pkg := ⟨"foo", []⟩

/-- Sample build context (rebuild and retry false, as constructed in
src/pkg.rs lines 329-336). -/
def fooCfg : Config :=
  ⟨⟨"x86-64-v3", "wiki", [], 3⟩, "focal", "1.0-1", "/build/x86-64-v3/focal/foo", false, false⟩

/-- Sample source-stage command environment in which every tool succeeds. -/
def okSrcEnv : SourceEnv :=
  ⟨0, ["foo_1.0-1.dsc", "foo_1.0-1.tar.xz"], 0, 0, fun _ => true, fun _ => 0, 0, 0,
   ["foo_1.0-1popopt3.dsc", "foo_1.0-1popopt3.tar.xz"]⟩

/-- Sample sbuild command environment in which the build succeeds. -/
def okSbEnv : SbuildEnv := ⟨0, ["foo_1.0-1popopt3_amd64.deb"]⟩

/-- Driver environment for the C2 counterexample: package a's build fails
outright, package b's build succeeds with one artifact. -/
def c2Env : DriverEnv :=
  ⟨fun n => if n = "a" then .error ⟨.other, "exited with status 1"⟩ else .ok [.ok "dirb"],
   fun _ => ["b_1.0_amd64.deb"]⟩

/-- Driver environment for the C3 witness: directory listings for the two
architecture build directories of the spec scenario. -/
def c3Env : DriverEnv :=
  ⟨fun _ => .ok [],
   fun d => if d = "dir-amd64" then ["foo_1.0_amd64.deb", "foo_1.0.buildlog"] else []⟩

/-- Source-stage environment for the C6 counterexample: patch application
fails with exit status 1 at the first patch. -/
def c6Env : SourceEnv :=
  ⟨0, ["foo_1.0-1.dsc"], 0, 0, fun _ => true, fun _ => 1, 0, 0, []⟩

/-- A strict weak order on strings used by the C10 witness: longer strings
are greater, so distinct strings of equal length tie. -/
def gtLen (a b : String) : Bool :=
  decide (b.data.length < a.data.length)

/-! Theorems. -/

theorem maxSel_cons (gt : String → String → Bool) (init x : String) (xs : List String) :
    maxSel gt init (x :: xs) = maxSel gt (if gt x init then x else init) xs := rfl

theorem select_eq_maxSel (gt : String → String → Bool) (v : String) (vs : List String) :
    select_version gt (v :: vs) = some (maxSel gt v vs) := by
  simp only [select_version, maxSel, List.foldl_cons, ite_self]

theorem maxSel_mem (gt : String → String → Bool) :
    ∀ (xs : List String) (init : String),
      maxSel gt init xs = init ∨ maxSel gt init xs ∈ xs := by
  intro xs
  induction xs with
  | nil => intro init; left; rfl
  | cons x xs ih =>
    intro init
    rw [maxSel_cons]
    by_cases h : gt x init = true
    · rw [if_pos h]
      rcases ih x with h' | h'
      · right; rw [h']; exact List.mem_cons_self x xs
      · right; exact List.mem_cons_of_mem x h'
    · rw [if_neg h]
      rcases ih init with h' | h'
      · left; exact h'
      · right; exact List.mem_cons_of_mem x h'

theorem maxSel_chain (gt : String → String → Bool) (D : List String)
    (htrans : ∀ a ∈ D, ∀ b ∈ D, ∀ c ∈ D, gt a b = true → gt b c = true → gt a c = true) :
    ∀ (xs : List String) (init : String), init ∈ D → (∀ x ∈ xs, x ∈ D) →
      maxSel gt init xs = init ∨ gt (maxSel gt init xs) init = true := by
  intro xs
  induction xs with
  | nil => intro init _ _; left; rfl
  | cons x xs ih =>
    intro init hinit hxs
    have hxD : x ∈ D := hxs x (List.mem_cons_self x xs)
    have hxsD : ∀ y ∈ xs, y ∈ D := fun y hy => hxs y (List.mem_cons_of_mem x hy)
    rw [maxSel_cons]
    by_cases h : gt x init = true
    · rw [if_pos h]
      have hmD : maxSel gt x xs ∈ D := by
        rcases maxSel_mem gt xs x with h' | h'
        · rw [h']; exact hxD
        · exact hxsD _ h'
      rcases ih x hxD hxsD with h' | h'
      · right; rw [h']; exact h
      · right; exact htrans _ hmD _ hxD _ hinit h' h
    · rw [if_neg h]
      exact ih init hinit hxsD

theorem maxSel_not_beaten (gt : String → String → Bool) (D : List String)
    (htrans : ∀ a ∈ D, ∀ b ∈ D, ∀ c ∈ D, gt a b = true → gt b c = true → gt a c = true)
    (hirr : ∀ a ∈ D, gt a a = false) :
    ∀ (xs : List String) (init : String), init ∈ D → (∀ x ∈ xs, x ∈ D) →
      ∀ u, (u = init ∨ u ∈ xs) → gt u (maxSel gt init xs) = false := by
  intro xs
  induction xs with
  | nil =>
    intro init hinit _ u hu
    rcases hu with rfl | hu
    · exact hirr u hinit
    · exact absurd hu (List.not_mem_nil u)
  | cons x xs ih =>
    intro init hinit hxs u hu
    have hxD : x ∈ D := hxs x (List.mem_cons_self x xs)
    have hxsD : ∀ y ∈ xs, y ∈ D := fun y hy => hxs y (List.mem_cons_of_mem x hy)
    rw [maxSel_cons]
    by_cases h : gt x init = true
    · rw [if_pos h]
      have hmD : maxSel gt x xs ∈ D := by
        rcases maxSel_mem gt xs x with h' | h'
        · rw [h']; exact hxD
        · exact hxsD _ h'
      rcases hu with rfl | hu
      · -- u = init: if gt init (maxSel x xs) then via the chain gt init x or
        -- gt init x follows, contradicting asymmetry with gt x init
        by_contra hc
        have hc' : gt u (maxSel gt x xs) = true := by
          cases hgt : gt u (maxSel gt x xs) with
          | true => rfl
          | false => exact absurd hgt hc
        have hux : gt u x = true := by
          rcases maxSel_chain gt D htrans xs x hxD hxsD with h' | h'
          · rw [h'] at hc'; exact hc'
          · exact htrans _ hinit _ hmD _ hxD hc' h'
        have : gt u u = true := htrans _ hinit _ hxD _ hinit hux h
        rw [hirr u hinit] at this
        exact Bool.noConfusion this
      · rcases List.mem_cons.mp hu with rfl | hu'
        · exact ih _ hxD hxsD _ (Or.inl rfl)
        · exact ih _ hxD hxsD _ (Or.inr hu')
    · rw [if_neg h]
      have hnx : gt x init = false := by
        cases hgt : gt x init with
        | true => exact absurd hgt h
        | false => rfl
      rcases hu with rfl | hu
      · exact ih _ hinit hxsD _ (Or.inl rfl)
      · rcases List.mem_cons.mp hu with rfl | hu'
        · -- u = x: gt x (maxSel init xs) would give gt x init via the chain
          by_contra hc
          have hc' : gt u (maxSel gt init xs) = true := by
            cases hgt : gt u (maxSel gt init xs) with
            | true => rfl
            | false => exact absurd hgt hc
          have hmD : maxSel gt init xs ∈ D := by
            rcases maxSel_mem gt xs init with h' | h'
            · rw [h']; exact hinit
            · exact hxsD _ h'
          rcases maxSel_chain gt D htrans xs init hinit hxsD with h' | h'
          · rw [h'] at hc'
            rw [hc'] at hnx
            exact Bool.noConfusion hnx
          · have : gt u init = true := htrans _ hxD _ hmD _ hinit hc' h'
            rw [this] at hnx
            exact Bool.noConfusion hnx
        · exact ih init hinit hxsD u (Or.inr hu')

theorem boolNotTrue {b : Bool} (h : ¬ b = true) : b = false := by
  cases b with
  | true => exact absurd rfl h
  | false => rfl

/-- C5: For every non-empty list of candidate versions, the selection loop
of Pkg::build (src/pkg.rs lines 311-324) returns, by repeated pairwise
external greater-than queries, an element of the candidate list that no
other candidate strictly exceeds, provided the external comparison is
transitive and irreflexive on the candidates (as dpkg packaging version
ordering is). -/
theorem pkg_build_selects_maximum (gt : String → String → Bool) (v : String) (vs : List String)
    (htrans : ∀ a ∈ v :: vs, ∀ b ∈ v :: vs, ∀ c ∈ v :: vs,
      gt a b = true → gt b c = true → gt a c = true)
    (hirr : ∀ a ∈ v :: vs, gt a a = false) :
    ∃ m, select_version gt (v :: vs) = some m ∧ m ∈ v :: vs ∧
      ∀ u ∈ v :: vs, gt u m = false := by
  refine ⟨maxSel gt v vs, select_eq_maxSel gt v vs, ?_, ?_⟩
  · rcases maxSel_mem gt vs v with h | h
    · rw [h]; exact List.mem_cons_self v vs
    · exact List.mem_cons_of_mem v h
  · intro u hu
    exact maxSel_not_beaten gt (v :: vs) htrans hirr vs v
      (List.mem_cons_self v vs) (fun x hx => List.mem_cons_of_mem v hx) u
      (List.mem_cons.mp hu)

/-- Witness for C5 at the spec's example: among
["1.0-1", "1.0-2ubuntu1", "0.9-1"] the loop picks "1.0-2ubuntu1", the
maximum under packaging version ordering. -/
theorem pkg_build_selects_maximum_witness :
    (∃ m, select_version debGT ["1.0-1", "1.0-2ubuntu1", "0.9-1"] = some m ∧
        m ∈ ["1.0-1", "1.0-2ubuntu1", "0.9-1"] ∧
        ∀ u ∈ ["1.0-1", "1.0-2ubuntu1", "0.9-1"], debGT u m = false) ∧
    select_version debGT ["1.0-1", "1.0-2ubuntu1", "0.9-1"] = some "1.0-2ubuntu1" :=
  ⟨pkg_build_selects_maximum debGT "1.0-1" ["1.0-2ubuntu1", "0.9-1"]
      (by decide) (by decide),
   by decide⟩

theorem source_values_ok_ne_nil (source key : String) (vs : List String)
    (h : source_values source key = .ok vs) : vs ≠ [] := by
  simp only [source_values] at h
  split at h
  · cases h
  · next hne =>
    cases h
    intro hnil
    rw [hnil] at hne
    simp at hne

/-- C9: the key-value scan returns Ok only for a non-empty value list, so
the version-selection loop's initial indexing `&versions[0]` is always in
bounds: resolveVersion never reaches the out-of-bounds (none) case. -/
theorem resolve_version_indexing_safe (gt : String → String → Bool) (source : String) :
    (∀ vs, source_values source "Version" = .ok vs → vs ≠ []) ∧
    (resolveVersion gt source).isSome = true := by
  refine ⟨fun vs h => source_values_ok_ne_nil source "Version" vs h, ?_⟩
  unfold resolveVersion
  cases hsv : source_values source "Version" with
  | error e => rfl
  | ok versions =>
    cases versions with
    | nil => exact absurd rfl (source_values_ok_ne_nil source "Version" [] hsv)
    | cons v vs => simp [select_eq_maxSel]

/-- Witness for C9 at a concrete metadata listing. -/
theorem resolve_version_indexing_safe_witness :
    (∀ vs, source_values "Package: foo\nVersion: 1.0-1\nVersion: 0.9\n" "Version" = .ok vs →
      vs ≠ []) ∧
    (resolveVersion debGT "Package: foo\nVersion: 1.0-1\nVersion: 0.9\n").isSome = true :=
  resolve_version_indexing_safe debGT "Package: foo\nVersion: 1.0-1\nVersion: 0.9\n"

theorem findP_cons_pos {α : Type} (p : α → Bool) (a : α) (l : List α) (h : p a = true) :
    (a :: l).find? p = some a := List.find?_cons_of_pos l h

theorem findP_cons_neg {α : Type} (p : α → Bool) (a : α) (l : List α) (h : p a = false) :
    (a :: l).find? p = l.find? p := List.find?_cons_of_neg l (by simp [h])

theorem find?_congrP {α : Type} (p q : α → Bool) :
    ∀ l : List α, (∀ u ∈ l, p u = q u) → l.find? p = l.find? q := by
  intro l
  induction l with
  | nil => intro _; rfl
  | cons a l ih =>
    intro h
    have ha := h a (List.mem_cons_self a l)
    by_cases hp : p a = true
    · rw [List.find?_cons_of_pos _ hp, List.find?_cons_of_pos _ (ha ▸ hp)]
    · have hp' : p a = false := boolNotTrue hp
      rw [List.find?_cons_of_neg _ (by simp [hp']),
          List.find?_cons_of_neg _ (by simp [ha ▸ hp'])]
      exact ih (fun u hu => h u (List.mem_cons_of_mem a hu))

theorem maxSel_eq_first_max (gt : String → String → Bool)
    (HT : ∀ a b c, gt a b = true → gt b c = true → gt a c = true)
    (HI : ∀ a, gt a a = false)
    (HN : ∀ a b c, gt a b = false → gt b c = false → gt a c = false) :
    ∀ (xs : List String) (init : String),
      (init :: xs).find? (fun u => (init :: xs).all (fun w => !gt w u)) =
        some (maxSel gt init xs) := by
  intro xs
  induction xs with
  | nil =>
    intro init
    have hP : ([init].all (fun w => !gt w init)) = true := by
      simp [List.all_cons, HI init]
    rw [findP_cons_pos (fun u => [init].all (fun w => !gt w u)) init [] hP]
    rfl
  | cons x xs ih =>
    intro init
    by_cases hx : gt x init = true
    · -- the new element beats the running value
      have hPinit : ((init :: x :: xs).all (fun w => !gt w init)) = false := by
        apply boolNotTrue
        intro hall
        rw [List.all_eq_true] at hall
        have := hall x (List.mem_cons_of_mem init (List.mem_cons_self x xs))
        simp [hx] at this
      rw [findP_cons_neg (fun u => (init :: x :: xs).all (fun w => !gt w u)) init (x :: xs)
        hPinit]
      have hagree : ∀ u ∈ x :: xs,
          ((init :: x :: xs).all (fun w => !gt w u)) = ((x :: xs).all (fun w => !gt w u)) := by
        intro u hu
        simp only [List.all_cons]
        by_cases hrest : ((!gt x u) && xs.all (fun w => !gt w u)) = true
        · have hxu : gt x u = false := by
            rcases Bool.and_eq_true_iff.mp hrest with ⟨h1, _⟩
            simpa using h1
          have hgi : gt init u = false := by
            apply boolNotTrue
            intro hgi
            have := HT x init u hx hgi
            rw [this] at hxu
            exact Bool.noConfusion hxu
          simp [hrest, hgi]
        · have hrest' := boolNotTrue hrest
          simp [hrest']
      rw [find?_congrP _ _ (x :: xs) hagree, ih x, maxSel_cons, if_pos hx]
    · have hx' : gt x init = false := boolNotTrue hx
      by_cases hPi : ((init :: xs).all
 (fun w => !gt w init)) = true
      · -- the running value is maximal: it survives and is found first
        have hPL : ((init :: x :: xs).all (fun w => !gt w init)) = true := by
          rw [List.all_eq_true] at hPi ⊢
          intro w hw
          rcases List.mem_cons.mp hw with rfl | hw'
          · exact hPi w (List.mem_cons_self w xs)
          · rcases List.mem_cons.mp hw' with rfl | hw''
            · simp [hx']
            · exact hPi w (List.mem_cons_of_mem init hw'')
        rw [findP_cons_pos (fun u => (init :: x :: xs).all (fun w => !gt w u)) init (x :: xs)
          hPL]
        have hIH := ih init
        rw [findP_cons_pos (fun u => (init :: xs).all (fun w => !gt w u)) init xs hPi] at hIH
        have hinit : init = maxSel gt init xs := Option.some.inj hIH
        rw [maxSel_cons, if_neg (by simp [hx']), ← hinit]
      · have hPi' : ((init :: xs).all (fun w => !gt w init)) = false := boolNotTrue hPi
        have hwit : ∃ w ∈ init :: xs, gt w init = true := by
          have hnall : ¬ ((init :: xs).all (fun w => !gt w init) = true) := by
            simp [hPi']
          rw [List.all_eq_true] at hnall
          push_neg at hnall
          obtain ⟨w, hwmem, hwv⟩ := hnall
          exact ⟨w, hwmem, by simpa using hwv⟩
        obtain ⟨w, hwmem, hwgt⟩ := hwit
        have hwx : gt w x = true := by
          by_contra hc
          have := HN w x init (boolNotTrue hc) hx'
          rw [this] at hwgt
          exact Bool.noConfusion hwgt
        have hwL : w ∈ init :: x :: xs := by
          rcases List.mem_cons.mp hwmem with rfl | hw'
          · exact List.mem_cons_self w (x :: xs)
          · exact List.mem_cons_of_mem init (List.mem_cons_of_mem x hw')
        have hPLi : ((init :: x :: xs).all (fun w' => !gt w' init)) = false := by
          apply boolNotTrue
          intro hall
          rw [List.all_eq_true] at hall
          have := hall w hwL
          simp [hwgt] at this
        have hPLx : ((init :: x :: xs).all (fun w' => !gt w' x)) = false := by
          apply boolNotTrue
          intro hall
          rw [List.all_eq_true] at hall
          have := hall w hwL
          simp [hwx] at this
        rw [findP_cons_neg (fun u => (init :: x :: xs).all (fun w' => !gt w' u)) init (x :: xs)
          hPLi]
        rw [findP_cons_neg (fun u => (init :: x :: xs).all (fun w' => !gt w' u)) x xs hPLx]
        have hagree : ∀ u ∈ xs,
            ((init :: x :: xs).all (fun w' => !gt w' u)) =
              ((init :: xs).all (fun w' => !gt w' u)) := by
          intro u hu
          simp only [List.all_cons]
          by_cases hgi : gt init u = true
          · simp [hgi]
          · have hgi' := boolNotTrue hgi
            have hgxu : gt x u = false := HN x init u hx' hgi'
            simp [hgi', hgxu]
        rw [find?_congrP _ _ xs hagree]
        have hIH := ih init
        rw [findP_cons_neg (fun u => (init :: xs).all (fun w' => !gt w' u)) init xs hPi'] at hIH
        rw [hIH, maxSel_cons, if_neg (by simp [hx'])]

/-- C10: the selection loop replaces the running maximum only on a strict
greater-than answer, so it returns the first-seen maximal candidate: the
result equals find? of "no candidate strictly exceeds u" over the listing,
provided the external comparison gt is a strict weak order (transitive,
irreflexive, with transitive complement), as dpkg version ordering is. -/
theorem select_version_tie_break (gt : String → String → Bool)
    (HT : ∀ a b c, gt a b = true → gt b c = true → gt a c = true)
    (HI : ∀ a, gt a a = false)
    (HN : ∀ a b c, gt a b = false → gt b c = false → gt a c = false)
    (v : String) (vs : List String) :
    select_version gt (v :: vs) =
      (v :: vs).find? (fun u => (v :: vs).all (fun w => !gt w u)) := by
  rw [select_eq_maxSel, maxSel_eq_first_max gt HT HI HN vs v]

theorem gtLen_trans : ∀ a b c, gtLen a b = true → gtLen b c = true → gtLen a c = true := by
  intro a b c hab hbc
  simp only [gtLen, decide_eq_true_eq] at *
  omega

theorem gtLen_irrefl : ∀ a, gtLen a a = false := by
  intro a
  simp [gtLen]

theorem gtLen_negtrans : ∀ a b c, gtLen a b = false → gtLen b c = false → gtLen a c = false := by
  intro a b c hab hbc
  simp only [gtLen, decide_eq_false_iff_not] at *
  omega

/-- Witness for C10: with a comparison under which "aa" and "bb" tie as
maximal, the loop returns the first-listed "aa". -/
theorem select_version_tie_break_witness :
    select_version gtLen ["aa", "bb", "c"] =
      (["aa", "bb", "c"]).find? (fun u => (["aa", "bb", "c"]).all (fun w => !gtLen w u)) ∧
    select_version gtLen ["aa", "bb", "c"] = some "aa" :=
  ⟨select_version_tie_break gtLen gtLen_trans gtLen_irrefl gtLen_negtrans "aa" ["bb", "c"],
   by decide⟩

theorem poolLink_of_mem (pool : List (String × String)) (n f : String)
    (h : (n, f) ∈ pool) : poolLink pool n f = pool := by
  unfold poolLink
  rw [if_pos h]

theorem mem_poolLink_self (pool : List (String × String)) (n f : String) :
    (n, f) ∈ poolLink pool n f := by
  unfold poolLink
  split
  · assumption
  · exact List.mem_append_right _ (List.mem_singleton.mpr rfl)

theorem mem_poolLink_mono (pool : List (String × String)) (n f : String)
    (a : String × String) (h : a ∈ pool) : a ∈ poolLink pool n f := by
  unfold poolLink
  split
  · exact h
  · exact List.mem_append_left _ h

theorem mem_poolAdd_mono (n : String) (debs : List String) :
    ∀ (pool : List (String × String)) (a : String × String), a ∈ pool →
      a ∈ poolAdd pool n debs := by
  induction debs with
  | nil => intro pool a h; exact h
  | cons d ds ih =>
    intro pool a h
    exact ih (poolLink pool n d) a (mem_poolLink_mono pool n d a h)

theorem mem_poolAdd (n : String) (debs : List String) :
    ∀ (pool : List (String × String)) (f : String), f ∈ debs →
      (n, f) ∈ poolAdd pool n debs := by
  induction debs with
  | nil => intro pool f h; exact absurd h (List.not_mem_nil f)
  | cons d ds ih =>
    intro pool f h
    rcases List.mem_cons.mp h with rfl | h'
    · exact mem_poolAdd_mono n ds (poolLink pool n f) (n, f) (mem_poolLink_self pool n f)
    · exact ih (poolLink pool n d) f h'

/-- C7: pool aggregation is idempotent: the hard link is created only when
no entry of that name exists, so re-aggregating the same file name does not
error and leaves exactly one pool entry per distinct file name. -/
theorem pool_aggregation_idempotent (pool : List (String × String)) (n f : String) :
    poolLink (poolLink pool n f) n f = poolLink pool n f ∧
    ((n, f) ∈ pool → poolLink pool n f = pool) ∧
    (List.count (n, f) pool ≤ 1 → List.count (n, f) (poolLink pool n f) = 1) := by
  refine ⟨poolLink_of_mem _ n f (mem_poolLink_self pool n f), poolLink_of_mem pool n f, ?_⟩
  · intro hc
    by_cases h : (n, f) ∈ pool
    · unfold poolLink
      rw [if_pos h]
      have h1 : 0 < List.count (n, f) pool := List.count_pos_iff.mpr h
      omega
    · unfold poolLink
      rw [if_neg h, List.count_append]
      have h0 : List.count (n, f) pool = 0 := by
        rw [List.count_eq_zero]
        exact h
      rw [h0]
      simp

/-- Witness for C7: linking the same file name twice into an empty pool and
into a pool already holding it. -/
theorem pool_aggregation_idempotent_witness :
    poolLink (poolLink [] "foo" "foo_1.0_amd64.deb") "foo" "foo_1.0_amd64.deb" =
      poolLink [] "foo" "foo_1.0_amd64.deb" ∧
    poolLink [("foo", "foo_1.0_amd64.deb")] "foo" "foo_1.0_amd64.deb" =
      [("foo", "foo_1.0_amd64.deb")] ∧
    List.count ("foo", "foo_1.0_amd64.deb") (poolLink [] "foo" "foo_1.0_amd64.deb") = 1 :=
  ⟨(pool_aggregation_idempotent [] "foo" "foo_1.0_amd64.deb").1,
   (pool_aggregation_idempotent [("foo", "foo_1.0_amd64.deb")] "foo"
      "foo_1.0_amd64.deb").2.1 (by decide),
   (pool_aggregation_idempotent [] "foo" "foo_1.0_amd64.deb").2.2 (by decide)⟩

theorem joinThreads_append (env : DriverEnv) :
    ∀ ts1 ts2 : List (Except IoError String),
      joinThreads env (ts1 ++ ts2) =
        ((joinThreads env ts1).1 ++ (joinThreads env ts2).1,
         (joinThreads env ts1).2 ++ (joinThreads env ts2).2) := by
  intro ts1 ts2
  induction ts1 with
  | nil => simp [joinThreads]
  | cons t ts ih =>
    cases t with
    | ok dir => simp [joinThreads, ih]
    | error e => simp [joinThreads, ih]

theorem debs_in_joinThreads (env : DriverEnv) :
    ∀ (ts : List (Except IoError String)) (dir : String), .ok dir ∈ ts →
      ∀ f ∈ debFiles env dir, f ∈ (joinThreads env ts).1 := by
  intro ts
  induction ts with
  | nil => intro dir h; exact absurd h (List.not_mem_nil _)
  | cons t ts ih =>
    intro dir h f hf
    rcases List.mem_cons.mp h with rfl | h'
    · simp only [joinThreads]
      exact List.mem_append_left _ hf
    · cases t with
      | ok d => simp only [joinThreads]; exact List.mem_append_right _ (ih dir h' f hf)
      | error e => simp only [joinThreads]; exact ih dir h' f hf

/-- C3: in the join loop each architecture worker's result is handled
independently: an Err worker in the middle neither cancels nor alters its
siblings' collected artifacts (it only adds a failure report), and pool
aggregation still links every artifact of every worker that succeeded. -/
theorem arch_failure_independent (env : DriverEnv) (name : String)
    (ts1 ts2 : List (Except IoError String)) (e : IoError)
    (pool : List (String × String)) :
    (joinThreads env (ts1 ++ .error e :: ts2)).1 =
      (joinThreads env ts1).1 ++ (joinThreads env ts2).1 ∧
    (joinThreads env (ts1 ++ .error e :: ts2)).2 =
      (joinThreads env ts1).2 ++ e :: (joinThreads env ts2).2 ∧
    (∀ dir f, .ok dir ∈ ts1 ++ .error e :: ts2 → f ∈ debFiles env dir →
      (name, f) ∈ poolAdd pool name (joinThreads env (ts1 ++ .error e :: ts2)).1) := by
  refine ⟨?_, ?_, ?_⟩
  · rw [joinThreads_append]
    simp [joinThreads]
  · rw [joinThreads_append]
    simp [joinThreads]
  · intro dir f hdir hf
    exact mem_poolAdd name _ pool f (debs_in_joinThreads env _ dir hdir f hf)

/-- Witness for C3 at the spec scenario: amd64 succeeds, i386 fails; the
joined results keep amd64's artifact and record i386's error, and the pool
receives amd64's artifact. -/
theorem arch_failure_independent_witness :
    (joinThreads c3Env [.ok "dir-amd64", .error ⟨.other, "exited with status 1"⟩]).1 =
      (joinThreads c3Env [.ok "dir-amd64"]).1 ++ (joinThreads c3Env []).1 ∧
    (joinThreads c3Env [.ok "dir-amd64", .error ⟨.other, "exited with status 1"⟩]).2 =
      (joinThreads c3Env [.ok "dir-amd64"]).2 ++
        ⟨.other, "exited with status 1"⟩ :: (joinThreads c3Env []).2 ∧
    ("foo", "foo_1.0_amd64.deb") ∈ poolAdd [] "foo"
      (joinThreads c3Env [.ok "dir-amd64", .error ⟨.other, "exited with status 1"⟩]).1 := by
  have h := arch_failure_independent c3Env "foo" [.ok "dir-amd64"] []
    ⟨.other, "exited with status 1"⟩ []
  exact ⟨h.1, h.2.1, h.2.2 "dir-amd64" "foo_1.0_amd64.deb" (by decide) (by decide)⟩

theorem spawnAll_abort (env : DriverEnv) (p : Pkg) (pkgs : List Pkg) (e : IoError)
    (h : env.buildRes p.name = .error e) : spawnAll env (p :: pkgs) = .error e := by
  simp [spawnAll, h]

theorem spawnAll_all_ok (env : DriverEnv) :
    ∀ pkgs : List Pkg, (∀ p ∈ pkgs, ∃ r, env.buildRes p.name = .ok r) →
      ∃ items, spawnAll env pkgs = .ok items := by
  intro pkgs
  induction pkgs with
  | nil => intro _; exact ⟨[], rfl⟩
  | cons p rest ih =>
    intro h
    obtain ⟨r, hr⟩ := h p (List.mem_cons_self p rest)
    obtain ⟨items, hitems⟩ := ih (fun q hq => h q (List.mem_cons_of_mem p hq))
    exact ⟨(p.name, r) :: items, by simp [spawnAll, hr, hitems]⟩

/-- Counterexample for C2: a total failure of one package aborts the run.
Package a's build fails outright and the driver returns that error instead
of continuing; running package b alone shows its artifact would have been
collected and pooled. -/
theorem driver_aborts_on_pkg_failure_cx :
    buildDriver c2Env [⟨"a", []⟩, ⟨"b", []⟩] [] =
      .error ⟨.other, "exited with status 1"⟩ ∧
    buildDriver c2Env [⟨"b", []⟩] [] = .ok ([], [("b", "b_1.0_amd64.deb")]) := by
  constructor
  · rfl
  · rfl

/-- C2 (amended): the outer driver aborts on a package-level total failure
(the first Err of Pkg::build propagates out of the spawn loop); it
continues only when every package's build spawns Ok, and then
per-architecture worker failures are reported in the per-package failure
summary without aborting the run. -/
theorem driver_failure_policy (env : DriverEnv) :
    (∀ (p : Pkg) (pkgs : List Pkg) (e : IoError) (pool : List (String × String)),
      env.buildRes p.name = .error e → buildDriver env (p :: pkgs) pool = .error e) ∧
    (∀ (pkgs : List Pkg) (pool : List (String × String)),
      (∀ p ∈ pkgs, ∃ r, env.buildRes p.name = .ok r) →
      ∃ out, buildDriver env pkgs pool = .ok out) ∧
    (∀ ts : List (Except IoError String),
      (joinThreads env ts).2 = ts.filterMap (fun t =>
        match t with
        | .error e => some e
        | .ok _ => none)) := by
  refine ⟨?_, ?_, ?_⟩
  · intro p pkgs e pool h
    unfold buildDriver
    rw [spawnAll_abort env p pkgs e h]
  · intro pkgs pool h
    obtain ⟨items, hitems⟩ := spawnAll_all_ok env pkgs h
    exact ⟨driverJoin env pool items, by simp [buildDriver, hitems]⟩
  · intro ts
    induction ts with
    | nil => rfl
    | cons t ts ih =>
      cases t with
      | ok dir => simp [joinThreads, ih]
      | error e => simp [joinThreads, ih]

/-- Witness for C2's amended policy at concrete inputs. -/
theorem driver_failure_policy_witness :
    buildDriver c2Env [⟨"a", []⟩] [] = .error ⟨.other, "exited with status 1"⟩ ∧
    (∃ out, buildDriver c2Env [⟨"b", []⟩] [] = .ok out) ∧
    (joinThreads c2Env [.ok "dirb", .error ⟨.other, "exited with status 2"⟩]).2 =
      [⟨.other, "exited with status 2"⟩] := by
  refine ⟨(driver_failure_policy c2Env).1 ⟨"a", []⟩ [] _ [] rfl,
    (driver_failure_policy c2Env).2.1 [⟨"b", []⟩] [] ?_, ?_⟩
  · intro p hp
    rw [List.mem_singleton] at hp
    subst hp
    exact ⟨[.ok "dirb"], rfl⟩
  · rw [(driver_failure_policy c2Env).2.2 [.ok "dirb", .error ⟨.other, "exited with status 2"⟩]]
    rfl

theorem applyPatches_all_ok (env : SourceEnv) (patchedDir : String) :
    ∀ (patches : List String) (i : Nat),
      (∀ p ∈ patches, env.canonicalizeOk p = true) →
      (∀ j, j < patches.length → env.patchStatus (i + j) = 0) →
      applyPatches env patchedDir patches i =
        (patches.map (fun p => Cmd.patch p patchedDir), .ok ()) := by
  intro patches
  induction patches with
  | nil => intro i _ _; rfl
  | cons p rest ih =>
    intro i hcan hst
    have hp : env.canonicalizeOk p = true := hcan p (List.mem_cons_self p rest)
    have h0 : env.patchStatus i = 0 := by
      have := hst 0 (by simp)
      simpa using this
    have hrest : applyPatches env patchedDir rest (i + 1) =
        (rest.map (fun q => Cmd.patch q patchedDir), .ok ()) := by
      apply ih (i + 1) (fun q hq => hcan q (List.mem_cons_of_mem p hq))
      intro j hj
      have := hst (j + 1) (by simpa using Nat.succ_lt_succ hj)
      have harith : i + (j + 1) = i + 1 + j := by omega
      rw [harith] at this
      exact this
    simp [applyPatches, hp, status_err, h0, hrest]

theorem applyPatches_stops_at_first_failure (env : SourceEnv) (patchedDir : String) :
    ∀ (patches : List String) (i k s : Nat),
      (∀ p ∈ patches, env.canonicalizeOk p = true) →
      k < patches.length →
      (∀ j, j < k → env.patchStatus (i + j) = 0) →
      env.patchStatus (i + k) = s → s ≠ 0 →
      applyPatches env patchedDir patches i =
        ((patches.take (k + 1)).map (fun p => Cmd.patch p patchedDir),
         .error ⟨.other, "exited with status " ++ toString s⟩) := by
  intro patches
  induction patches with
  | nil =>
    intro i k s _ hk _ _ _
    exact absurd hk (Nat.not_lt_zero k)
  | cons p rest ih =>
    intro i k s hcan hk hpre hfail hs
    have hp : env.canonicalizeOk p = true := hcan p (List.mem_cons_self p rest)
    cases k with
    | zero =>
      have h0 : env.patchStatus i = s := by simpa using hfail
      simp [applyPatches, hp, status_err, h0, hs]
    | succ k' =>
      have h0 : env.patchStatus i = 0 := by
        have := hpre 0 (Nat.succ_pos k')
        simpa using this
      have hrest : applyPatches env patchedDir rest (i + 1) =
          ((rest.take (k' + 1)).map (fun q => Cmd.patch q patchedDir),
           .error ⟨.other, "exited with status " ++ toString s⟩) := by
        apply ih (i + 1) k' s (fun q hq => hcan q (List.mem_cons_of_mem p hq))
          (by simpa using Nat.lt_of_succ_lt_succ hk)
        · intro j hj
          have := hpre (j + 1) (Nat.succ_lt_succ hj)
          have harith : i + (j + 1) = i + 1 + j := by omega
          rw [harith] at this
          exact this
        · have harith : i + (k' + 1) = i + 1 + k' := by omega
          rw [← harith]
          exact hfail
        · exact hs
      simp [applyPatches, hp, status_err, h0, hrest]

theorem applyPatches_cwd (env : SourceEnv) (patchedDir : String) :
    ∀ (patches : List String) (i : Nat),
      ∀ c ∈ (applyPatches env patchedDir patches i).1,
        ∃ p ∈ patches, c = Cmd.patch p patchedDir := by
  intro patches
  induction patches with
  | nil => intro i c hc; exact absurd hc (List.not_mem_nil c)
  | cons p rest ih =>
    intro i c hc
    by_cases hp : env.canonicalizeOk p = true
    · simp only [applyPatches, hp, if_true] at hc
      cases hst : status_err (env.patchStatus i) with
      | error e =>
        rw [hst] at hc
        simp at hc
        exact ⟨p, List.mem_cons_self p rest, hc⟩
      | ok u =>
        rw [hst] at hc
        simp at hc
        rcases hc with rfl | hc'
        · exact ⟨p, List.mem_cons_self p rest, rfl⟩
        · obtain ⟨q, hq, hcq⟩ := ih (i + 1) c hc'
          exact ⟨q, List.mem_cons_of_mem p hq, hcq⟩
    · have hp' : env.canonicalizeOk p = false := boolNotTrue hp
      simp [applyPatches, hp'] at hc

/-- Counterexample for C6: the error surfaced when a patch fails to apply
is the generic command exit-status error, identical for different failing
patches, so it does not identify the failed patch (no PatchFailed carrying
the patch index or path exists in the code). -/
theorem patch_error_not_identifying_cx :
    (applyPatches c6Env "/b/source.partial/patched" ["A.patch"] 0).2 =
      .error ⟨.other, "exited with status 1"⟩ ∧
    (applyPatches c6Env "/b/source.partial/patched" ["B.patch"] 0).2 =
      .error ⟨.other, "exited with status 1"⟩ ∧
    (applyPatches c6Env "/b/source.partial/patched" ["A.patch"] 0).2 =
      (applyPatches c6Env "/b/source.partial/patched" ["B.patch"] 0).2 :=
  ⟨rfl, rfl, rfl⟩

/-- C6 (amended): source preparation applies the configured patches to the
patched copy exactly in their declared order, never skipping or reordering
any patch, and stops at the first patch whose application fails, surfacing
the generic command-failure (exit status) error — which does not identify
the failed patch; every patch command runs in the patched copy, so the
original extracted tree is left untouched. -/
theorem patches_applied_in_order (env : SourceEnv) (patchedDir : String) :
    (∀ (patches : List String) (i : Nat),
      (∀ p ∈ patches, env.canonicalizeOk p = true) →
      (∀ j, j < patches.length → env.patchStatus (i + j) = 0) →
      applyPatches env patchedDir patches i =
        (patches.map (fun p => Cmd.patch p patchedDir), .ok ())) ∧
    (∀ (patches : List String) (i k s : Nat),
      (∀ p ∈ patches, env.canonicalizeOk p = true) →
      k < patches.length →
      (∀ j, j < k → env.patchStatus (i + j) = 0) →
      env.patchStatus (i + k) = s → s ≠ 0 →
      applyPatches env patchedDir patches i =
        ((patches.take (k + 1)).map (fun p => Cmd.patch p patchedDir),
         .error ⟨.other, "exited with status " ++ toString s⟩)) ∧
    (∀ (patches : List String) (i : Nat),
      ∀ c ∈ (applyPatches env patchedDir patches i).1,
        ∃ p ∈ patches, c = Cmd.patch p patchedDir) :=
  ⟨applyPatches_all_ok env patchedDir,
   applyPatches_stops_at_first_failure env patchedDir,
   applyPatches_cwd env patchedDir⟩

/-- Witness for C6's amended statement: two patches applied in order when
all succeed; with the first patch failing, exactly that prefix is applied
and the generic error surfaces; every command runs in the patched copy. -/
theorem patches_applied_in_order_witness :
    applyPatches okSrcEnv "/b/source.partial/patched" ["A.patch", "B.patch"] 0 =
      ([Cmd.patch "A.patch" "/b/source.partial/patched",
        Cmd.patch "B.patch" "/b/source.partial/patched"], .ok ()) ∧
    applyPatches c6Env "/b/source.partial/patched" ["A.patch", "B.patch"] 0 =
      ([Cmd.patch "A.patch" "/b/source.partial/patched"],
       .error ⟨.other, "exited with status 1"⟩) ∧
    (∀ c ∈ (applyPatches c6Env "/b/source.partial/patched" ["A.patch", "B.patch"] 0).1,
      ∃ p ∈ ["A.patch", "B.patch"], c = Cmd.patch p "/b/source.partial/patched") := by
  refine ⟨?_, ?_, ?_⟩
  · have h := (patches_applied_in_order okSrcEnv "/b/source.partial/patched").1
      ["A.patch", "B.patch"] 0 (by decide) (fun j _ => rfl)
    simpa using h
  · have h := (patches_applied_in_order c6Env "/b/source.partial/patched").2.1
      ["A.patch", "B.patch"] 0 0 1 (by decide) (by decide)
      (fun j hj => absurd hj (Nat.not_lt_zero j)) rfl (by decide)
    simpa using h
  · exact (patches_applied_in_order c6Env "/b/source.partial/patched").2.2
      ["A.patch", "B.patch"] 0

theorem source_row_inprogress (pkg : Pkg) (cfg : Config) (env : SourceEnv)
    (w : SourceWorld) (c : List String)
    (hre : cfg.retry = false) (hguard : w.completeDir = none ∨ cfg.rebuild = true)
    (hp : w.partDir = some c) :
    Pkg.source pkg cfg env w =
      ({ w with completeDir := none }, [],
       .error ⟨.alreadyExists,
         cfg.dir ++ "/source.partial already exists, build is in progress or already failed"⟩) := by
  obtain ⟨wc, wp, ws⟩ := w
  simp only at hp
  subst hp
  rcases hguard with hguard | hguard
  · simp only at hguard
    subst hguard
    simp [Pkg.source, sourceAfterCache, hre]
  · cases wc with
    | none => simp [Pkg.source, sourceAfterCache, hre]
    | some files => simp [Pkg.source, sourceAfterCache, hre, hguard]

theorem source_row_retry (pkg : Pkg) (cfg : Config) (env : SourceEnv)
    (w : SourceWorld) (c : List String)
    (hre : cfg.retry = true) (hguard : w.completeDir = none ∨ cfg.rebuild = true)
    (hp : w.partDir = some c) :
    Pkg.source pkg cfg env w = Pkg.source pkg cfg env { w with partDir := none } := by
  obtain ⟨wc, wp, ws⟩ := w
  simp only at hp
  subst hp
  rcases hguard with hguard | hguard
  · simp only at hguard
    subst hguard
    simp [Pkg.source, sourceAfterCache, hre]
  · cases wc with
    | none => simp [Pkg.source, sourceAfterCache, hre]
    | some files => simp [Pkg.source, sourceAfterCache, hre, hguard]

theorem source_row_rebuild (pkg : Pkg) (cfg : Config) (env : SourceEnv)
    (w : SourceWorld) (files : List String)
    (hrb : cfg.rebuild = true) (hc : w.completeDir = some files) :
    Pkg.source pkg cfg env w = Pkg.source pkg cfg env { w with completeDir := none } := by
  obtain ⟨wc, wp, ws⟩ := w
  simp only at hc
  subst hc
  simp [Pkg.source, hrb]

theorem sourceWork_cases (pkg : Pkg) (cfg : Config) (env : SourceEnv) (w : SourceWorld) :
    (∃ e, (sourceWork pkg cfg env w).2.2 = .error e) ∨
    ((pkg.name ++ "_" ++ new_version cfg.version cfg.arch.level ++ ".dsc") ∈
        ["original", "patched"] ++ env.builtFiles ∧
     (sourceWork pkg cfg env w).1 =
        ⟨some (["original", "patched"] ++ env.builtFiles), none, none⟩ ∧
     (sourceWork pkg cfg env w).2.2 =
        .ok (cfg.dir ++ "/source" ++ "/" ++ (pkg.name ++ "_" ++
          new_version cfg.version cfg.arch.level ++ ".dsc"))) := by
  cases hapt : status_err env.aptStatus with
  | error e => exact Or.inl ⟨e, by simp only [sourceWork, hapt]⟩
  | ok u =>
    by_cases hdl : (pkg.name ++ "_" ++ cfg.version ++ ".dsc") ∈ env.downloadedFiles
    · cases hext : status_err env.extractStatus with
      | error e =>
        exact Or.inl ⟨e, by simp only [sourceWork, hapt, hdl, hext, if_pos, if_true]⟩
      | ok u2 =>
        cases hcp : status_err env.cpStatus with
        | error e =>
          exact Or.inl ⟨e,
            by simp only [sourceWork, hapt, hdl, hext, hcp, if_pos, if_true]⟩
        | ok u3 =>
          cases hpt : applyPatches env (cfg.dir ++ "/source.partial" ++ "/patched")
              pkg.patches 0 with
          | mk ptr pres =>
            cases pres with
            | error e =>
              exact Or.inl ⟨e,
                by simp only [sourceWork, hapt, hdl, hext, hcp, hpt, if_pos, if_true]⟩
            | ok u4 =>
              cases hdch : status_err env.dchStatus with
              | error e =>
                exact Or.inl ⟨e,
                  by simp only [sourceWork, hapt, hdl, hext, hcp, hpt, hdch,
                    if_pos, if_true]⟩
              | ok u5 =>
                cases hdb : status_err env.dscBuildStatus with
                | error e =>
                  exact Or.inl ⟨e,
                    by simp only [sourceWork, hapt, hdl, hext, hcp, hpt, hdch, hdb,
                      if_pos, if_true]⟩
                | ok u6 =>
                  by_cases hmem : (pkg.name ++ "_" ++ new_version cfg.version cfg.arch.level
                      ++ ".dsc") ∈ ["original", "patched"] ++ env.builtFiles
                  · refine Or.inr ⟨hmem, ?_, ?_⟩
                    · simp only [sourceWork, hapt, hdl, hext, hcp, hpt, hdch, hdb, if_pos,
                        if_true]
                      rw [if_pos hmem]
                    · simp only [sourceWork, hapt, hdl, hext, hcp, hpt, hdch, hdb, if_pos,
                        if_true]
                      rw [if_pos hmem]
                  · refine Or.inl ⟨⟨.notFound, "failed to find DSC file " ++
                      (cfg.dir ++ "/source" ++ "/" ++ (pkg.name ++ "_" ++
                        new_version cfg.version cfg.arch.level ++ ".dsc"))⟩, ?_⟩
                    simp only [sourceWork, hapt, hdl, hext, hcp, hpt, hdch, hdb, if_pos,
                      if_true]
                    rw [if_neg hmem]
    · exact Or.inl ⟨⟨.notFound, "failed to find DSC file " ++
        ("/var/lib/sbuild/build/" ++ ("popopt_" ++ cfg.arch.name ++ "_" ++ cfg.dist ++ "_" ++
          pkg.name ++ "_" ++ cfg.version)) ++ "/" ++
        (pkg.name ++ "_" ++ cfg.version ++ ".dsc")⟩,
        by simp only [sourceWork, hapt]; rw [if_neg hdl]⟩

theorem source_row_commit (pkg : Pkg) (cfg : Config) (env : SourceEnv)
    (w w1 : SourceWorld) (tr : List Cmd) (d : String)
    (hc : w.completeDir = none) (hp : w.partDir = none)
    (h : Pkg.source pkg cfg env w = (w1, tr, .ok d)) :
    w1 = ⟨some (["original", "patched"] ++ env.builtFiles), none, none⟩ ∧
    d = cfg.dir ++ "/source" ++ "/" ++ (pkg.name ++ "_" ++
      new_version cfg.version cfg.arch.level ++ ".dsc") ∧
    (pkg.name ++ "_" ++ new_version cfg.version cfg.arch.level ++ ".dsc") ∈
      ["original", "patched"] ++ env.builtFiles := by
  obtain ⟨wc, wp, ws⟩ := w
  simp only at hc hp
  subst hc
  subst hp
  have hred : Pkg.source pkg cfg env ⟨none, none, ws⟩ =
      sourceWork pkg cfg env ⟨none, none, ws⟩ := by
    simp [Pkg.source, sourceAfterCache]
  rw [hred] at h
  rcases sourceWork_cases pkg cfg env ⟨none, none, ws⟩ with ⟨e, he⟩ | ⟨hmem, hw, hok⟩
  · rw [h] at he
    simp at he
  · rw [h] at hw hok
    simp only at hw hok
    exact ⟨hw, Except.ok.inj hok, hmem⟩

theorem sbuild_row_inprogress (dsc arch : String) (cfg : Config) (w : SbuildWorld)
    (c : List String)
    (hre : cfg.retry = false) (hguard : w.completeDir = none ∨ cfg.rebuild = true)
    (hp : w.partDir = some c) :
    Pkg.sbuild_thread dsc arch cfg w =
      ({ w with completeDir := none },
       .ok (.failedEarly ⟨.alreadyExists,
         cfg.dir ++ "/sbuild-" ++ arch ++
           ".partial already exists, build is in progress or already failed"⟩)) := by
  obtain ⟨wc, wp⟩ := w
  simp only at hp
  subst hp
  rcases hguard with hguard | hguard
  · simp only at hguard
    subst hguard
    simp [Pkg.sbuild_thread, sbuildAfterCache, hre]
  · cases wc with
    | none => simp [Pkg.sbuild_thread, sbuildAfterCache, hre]
    | some files => simp [Pkg.sbuild_thread, sbuildAfterCache, hre, hguard]

theorem sbuildJoin_failedEarly (e : IoError) (env : SbuildEnv) (w : SbuildWorld) :
    sbuildJoin (.failedEarly e) env w = (w, [], .error e) := rfl

theorem sbuildJoin_cached (dir : String) (env : SbuildEnv) (w : SbuildWorld) :
    sbuildJoin (.cached dir) env w = (w, [], .ok dir) := rfl

theorem sbuild_row_retry (dsc arch : String) (cfg : Config) (w : SbuildWorld)
    (c : List String)
    (hre : cfg.retry = true) (hguard : w.completeDir = none ∨ cfg.rebuild = true)
    (hp : w.partDir = some c) :
    Pkg.sbuild_thread dsc arch cfg w =
      Pkg.sbuild_thread dsc arch cfg { w with partDir := none } := by
  obtain ⟨wc, wp⟩ := w
  simp only at hp
  subst hp
  rcases hguard with hguard | hguard
  · simp only at hguard
    subst hguard
    simp [Pkg.sbuild_thread, sbuildAfterCache, hre]
  · cases wc with
    | none => simp [Pkg.sbuild_thread, sbuildAfterCache, hre]
    | some files => simp [Pkg.sbuild_thread, sbuildAfterCache, hre, hguard]

theorem sbuild_row_rebuild (dsc arch : String) (cfg : Config) (w : SbuildWorld)
    (files : List String)
    (hrb : cfg.rebuild = true) (hc : w.completeDir = some files) :
    Pkg.sbuild_thread dsc arch cfg w =
      Pkg.sbuild_thread dsc arch cfg { w with completeDir := none } := by
  obtain ⟨wc, wp⟩ := w
  simp only at hc
  subst hc
  simp [Pkg.sbuild_thread, hrb]

theorem sbuild_row_cached (dsc arch : String) (cfg : Config) (w : SbuildWorld)
    (files : List String)
    (hrb : cfg.rebuild = false) (hc : w.completeDir = some files) :
    Pkg.sbuild_thread dsc arch cfg w =
      (w, .ok (.cached (cfg.dir ++ "/sbuild-" ++ arch))) := by
  obtain ⟨wc, wp⟩ := w
  simp only at hc
  subst hc
  simp [Pkg.sbuild_thread, hrb]

theorem sbuild_row_commit (dsc arch : String) (cfg : Config) (w : SbuildWorld)
    (hc : w.completeDir = none) (hp : w.partDir = none) :
    Pkg.sbuild_thread dsc arch cfg w =
      ({ w with partDir := some ["sbuild.conf"] },
       .ok (.run (cfg.dir ++ "/sbuild-" ++ arch ++ ".partial")
         (cfg.dir ++ "/sbuild-" ++ arch)
         (Cmd.sbuild arch (arch == "amd64") dsc
           (cfg.dir ++ "/sbuild-" ++ arch ++ ".partial")))) ∧
    (∀ env : SbuildEnv, env.sbuildStatus = 0 →
      sbuildJoin (.run (cfg.dir ++ "/sbuild-" ++ arch ++ ".partial")
          (cfg.dir ++ "/sbuild-" ++ arch)
          (Cmd.sbuild arch (arch == "amd64") dsc
            (cfg.dir ++ "/sbuild-" ++ arch ++ ".partial")))
        env { w with partDir := some ["sbuild.conf"] } =
        (⟨some (["sbuild.conf"] ++ env.artifacts), none⟩,
         [Cmd.sbuild arch (arch == "amd64") dsc
           (cfg.dir ++ "/sbuild-" ++ arch ++ ".partial")],
         .ok (cfg.dir ++ "/sbuild-" ++ arch))) := by
  obtain ⟨wc, wp⟩ := w
  simp only at hc hp
  subst hc
  subst hp
  constructor
  · simp [Pkg.sbuild_thread, sbuildAfterCache, sbuildSpawnWork]
  · intro env hst
    simp [sbuildJoin, status_err, hst]

theorem sbuild_thread_cached_inv (dsc arch : String) (cfg : Config)
    (w w1 : SbuildWorld) (dir : String)
    (h : Pkg.sbuild_thread dsc arch cfg w = (w1, .ok (.cached dir))) :
    w1 = w ∧ dir = cfg.dir ++ "/sbuild-" ++ arch ∧
    (∃ files, w.completeDir = some files) ∧ cfg.rebuild = false := by
  obtain ⟨wc, wp⟩ := w
  cases wc with
  | none =>
    cases wp with
    | none => simp [Pkg.sbuild_thread, sbuildAfterCache, sbuildSpawnWork] at h
    | some c =>
      by_cases hre : cfg.retry = true
      · simp [Pkg.sbuild_thread, sbuildAfterCache, sbuildSpawnWork, hre] at h
      · simp [Pkg.sbuild_thread, sbuildAfterCache, boolNotTrue hre] at h
  | some files =>
    by_cases hrb : cfg.rebuild = true
    · cases wp with
      | none => simp [Pkg.sbuild_thread, sbuildAfterCache, sbuildSpawnWork, hrb] at h
      | some c =>
        by_cases hre : cfg.retry = true
        · simp [Pkg.sbuild_thread, sbuildAfterCache, sbuildSpawnWork, hrb, hre] at h
        · simp [Pkg.sbuild_thread, sbuildAfterCache, hrb, boolNotTrue hre] at h
    · have hrb' := boolNotTrue hrb
      simp [Pkg.sbuild_thread, hrb'] at h
      exact ⟨h.1.symm, h.2.symm, ⟨files, rfl⟩, hrb'⟩

theorem sbuild_thread_run_inv (dsc arch : String) (cfg : Config)
    (w w1 : SbuildWorld) (dirP dirC : String) (c : Cmd)
    (h : Pkg.sbuild_thread dsc arch cfg w = (w1, .ok (.run dirP dirC c))) :
    dirC = cfg.dir ++ "/sbuild-" ++ arch ∧
    w1.partDir = some ["sbuild.conf"] ∧
    c = Cmd.sbuild arch (arch == "amd64") dsc (cfg.dir ++ "/sbuild-" ++ arch ++ ".partial") := by
  obtain ⟨wc, wp⟩ := w
  cases wc with
  | none =>
    cases wp with
    | none =>
      simp [Pkg.sbuild_thread, sbuildAfterCache, sbuildSpawnWork] at h
      exact ⟨h.2.2.1.symm, by rw [← h.1], h.2.2.2.symm⟩
    | some cc =>
      by_cases hre : cfg.retry = true
      · simp [Pkg.sbuild_thread, sbuildAfterCache, sbuildSpawnWork, hre] at h
        exact ⟨h.2.2.1.symm, by rw [← h.1], h.2.2.2.symm⟩
      · simp [Pkg.sbuild_thread, sbuildAfterCache, boolNotTrue hre] at h
  | some files =>
    by_cases hrb : cfg.rebuild = true
    · cases wp with
      | none =>
        simp [Pkg.sbuild_thread, sbuildAfterCache, sbuildSpawnWork, hrb] at h
        exact ⟨h.2.2.1.symm, by rw [← h.1], h.2.2.2.symm⟩
      | some cc =>
        by_cases hre : cfg.retry = true
        · simp [Pkg.sbuild_thread, sbuildAfterCache, sbuildSpawnWork, hrb, hre] at h
          exact ⟨h.2.2.1.symm, by rw [← h.1], h.2.2.2.symm⟩
        · simp [Pkg.sbuild_thread, sbuildAfterCache, hrb, boolNotTrue hre] at h
    · simp [Pkg.sbuild_thread, boolNotTrue hrb] at h

theorem sbuildJoin_run_ok (dirP dirC : String) (c : Cmd) (env : SbuildEnv)
    (w1 w2 : SbuildWorld) (tr : List Cmd) (d : String)
    (h : sbuildJoin (.run dirP dirC c) env w1 = (w2, tr, .ok d)) :
    d = dirC ∧ w2 = ⟨w1.partDir.map (· ++ env.artifacts), none⟩ := by
  cases hst : status_err env.sbuildStatus with
  | error e =>
    simp [sbuildJoin, hst] at h
  | ok u =>
    simp [sbuildJoin, hst] at h
    exact ⟨h.2.2.symm, by rw [← h.1]⟩

theorem source_row_cachehit (pkg : Pkg) (cfg : Config) (env : SourceEnv)
    (w : SourceWorld) (files : List String)
    (hrb : cfg.rebuild = false) (hc : w.completeDir = some files)
    (hm : (pkg.name ++ "_" ++ new_version cfg.version cfg.arch.level ++ ".dsc") ∈ files) :
    Pkg.source pkg cfg env w =
      (w, [], .ok (cfg.dir ++ "/source" ++ "/" ++
        (pkg.name ++ "_" ++ new_version cfg.version cfg.arch.level ++ ".dsc"))) := by
  obtain ⟨wc, wp, ws⟩ := w
  simp only at hc
  subst hc
  simp [Pkg.source, hrb, hm]

theorem sourceWork_ok_post (pkg : Pkg) (cfg : Config) (env : SourceEnv)
    (w w1 : SourceWorld) (tr : List Cmd) (d : String)
    (h : sourceWork pkg cfg env w = (w1, tr, .ok d)) :
    ∃ files, w1.completeDir = some files ∧
      (pkg.name ++ "_" ++ new_version cfg.version cfg.arch.level ++ ".dsc") ∈ files ∧
      d = cfg.dir ++ "/source" ++ "/" ++
        (pkg.name ++ "_" ++ new_version cfg.version cfg.arch.level ++ ".dsc") := by
  rcases sourceWork_cases pkg cfg env w with ⟨e, he⟩ | ⟨hmem, hw, hok⟩
  · rw [h] at he
    simp at he
  · rw [h] at hw hok
    simp only at hw hok
    exact ⟨["original", "patched"] ++ env.builtFiles, by rw [hw], hmem, Except.ok.inj hok⟩

theorem sourceAfterCache_ok_post (pkg : Pkg) (cfg : Config) (env : SourceEnv)
    (w w1 : SourceWorld) (tr : List Cmd) (d : String)
    (h : sourceAfterCache pkg cfg env w = (w1, tr, .ok d)) :
    ∃ files, w1.completeDir = some files ∧
      (pkg.name ++ "_" ++ new_version cfg.version cfg.arch.level ++ ".dsc") ∈ files ∧
      d = cfg.dir ++ "/source" ++ "/" ++
        (pkg.name ++ "_" ++ new_version cfg.version cfg.arch.level ++ ".dsc") := by
  obtain ⟨wc, wp, ws⟩ := w
  cases wp with
  | none =>
    have h' : sourceWork pkg cfg env ⟨wc, none, ws⟩ = (w1, tr, .ok d) := by
      rw [← h]; simp [sourceAfterCache]
    exact sourceWork_ok_post pkg cfg env _ w1 tr d h'
  | some c =>
    by_cases hre : cfg.retry = true
    · have h' : sourceWork pkg cfg env ⟨wc, none, ws⟩ = (w1, tr, .ok d) := by
        rw [← h]; simp [sourceAfterCache, hre]
      exact sourceWork_ok_post pkg cfg env _ w1 tr d h'
    · simp [sourceAfterCache, boolNotTrue hre] at h

theorem source_ok_post (pkg : Pkg) (cfg : Config) (env : SourceEnv)
    (w w1 : SourceWorld) (tr : List Cmd) (d : String)
    (h : Pkg.source pkg cfg env w = (w1, tr, .ok d)) :
    ∃ files, w1.completeDir = some files ∧
      (pkg.name ++ "_" ++ new_version cfg.version cfg.arch.level ++ ".dsc") ∈ files ∧
      d = cfg.dir ++ "/source" ++ "/" ++
        (pkg.name ++ "_" ++ new_version cfg.version cfg.arch.level ++ ".dsc") := by
  obtain ⟨wc, wp, ws⟩ := w
  cases wc with
  | none =>
    have h' : sourceAfterCache pkg cfg env ⟨none, wp, ws⟩ = (w1, tr, .ok d) := by
      rw [← h]; simp [Pkg.source]
    exact sourceAfterCache_ok_post pkg cfg env _ w1 tr d h'
  | some files =>
    by_cases hrb : cfg.rebuild = true
    · have h' : sourceAfterCache pkg cfg env ⟨none, wp, ws⟩ = (w1, tr, .ok d) := by
        rw [← h]; simp [Pkg.source, hrb]
      exact sourceAfterCache_ok_post pkg cfg env _ w1 tr d h'
    · by_cases hm : (pkg.name ++ "_" ++ new_version cfg.version cfg.arch.level ++ ".dsc")
          ∈ files
      · rw [source_row_cachehit pkg cfg env ⟨some files, wp, ws⟩ files
          (boolNotTrue hrb) rfl hm] at h
        simp only [Prod.mk.injEq] at h
        obtain ⟨h1, _, h3⟩ := h
        exact ⟨files, by rw [← h1], hm, (Except.ok.inj h3).symm⟩
      · simp [Pkg.source, boolNotTrue hrb, hm] at h

theorem source_second_run (pkg : Pkg) (cfg : Config) (env env' : SourceEnv)
    (w w1 : SourceWorld) (tr : List Cmd) (d : String)
    (hrb : cfg.rebuild = false)
    (h : Pkg.source pkg cfg env w = (w1, tr, .ok d)) :
    Pkg.source pkg cfg env' w1 = (w1, [], .ok d) := by
  obtain ⟨files, hc, hm, hd⟩ := source_ok_post pkg cfg env w w1 tr d h
  rw [source_row_cachehit pkg cfg env' w1 files hrb hc hm, hd]

theorem sbuild_second_run (dsc arch : String) (cfg : Config) (env env' : SbuildEnv)
    (w w1 w2 : SbuildWorld) (sp : Spawned) (tr : List Cmd) (d : String)
    (hrb : cfg.rebuild = false)
    (hT : Pkg.sbuild_thread dsc arch cfg w = (w1, .ok sp))
    (hJ : sbuildJoin sp env w1 = (w2, tr, .ok d)) :
    Pkg.sbuild_thread dsc arch cfg w2 = (w2, .ok (.cached d)) ∧
    sbuildJoin (.cached d) env' w2 = (w2, [], .ok d) := by
  cases sp with
  | cached dir =>
    obtain ⟨hw1, hdir, ⟨files, hfiles⟩, _⟩ := sbuild_thread_cached_inv dsc arch cfg w w1 dir hT
    rw [sbuildJoin_cached] at hJ
    simp only [Prod.mk.injEq] at hJ
    obtain ⟨h1, _, h3⟩ := hJ
    have hdd : d = dir := (Except.ok.inj h3).symm
    subst hdd
    subst hdir
    have hc2 : w2.completeDir = some files := by
      rw [← h1, hw1, hfiles]
    exact ⟨sbuild_row_cached dsc arch cfg w2 files hrb hc2, sbuildJoin_cached _ env' w2⟩
  | failedEarly e =>
    rw [sbuildJoin_failedEarly] at hJ
    simp at hJ
  | run dirP dirC c =>
    obtain ⟨hdirC, hpart, _⟩ := sbuild_thread_run_inv dsc arch cfg w w1 dirP dirC c hT
    obtain ⟨hd, hw2⟩ := sbuildJoin_run_ok dirP dirC c env w1 w2 tr d hJ
    have hc2 : w2.completeDir = some (["sbuild.conf"] ++ env.artifacts) := by
      rw [hw2, hpart]
      rfl
    subst hd
    subst hdirC
    exact ⟨sbuild_row_cached dsc arch cfg w2 _ hrb hc2, sbuildJoin_cached _ env' w2⟩

/-- C1: both stage functions (Pkg::source and Pkg::sbuild_thread) implement
the StageState transition table: a partial directory with retry=false fails
with an already-in-progress (AlreadyExists) error, running no command and
leaving the partial directory's contents untouched; with retry=true the
partial directory is removed and the stage re-executes from scratch; a
canonical directory with rebuild=true is removed and the stage re-executes;
and on success the sole commit action is a single rename: the result world
holds the exact partial contents as the canonical directory and no partial
directory, so later invocations see the stage either fully done or
not-yet-done. -/
theorem stage_state_machine :
    (∀ (pkg : Pkg) (cfg : Config) (env : SourceEnv) (w : SourceWorld) (c : List String),
      cfg.retry = false → (w.completeDir = none ∨ cfg.rebuild = true) → w.partDir = some c →
      Pkg.source pkg cfg env w =
        ({ w with completeDir := none }, [],
         .error ⟨.alreadyExists,
           cfg.dir ++ "/source.partial already exists, build is in progress or already failed"⟩)) ∧
    (∀ (pkg : Pkg) (cfg : Config) (env : SourceEnv) (w : SourceWorld) (c : List String),
      cfg.retry = true → (w.completeDir = none ∨ cfg.rebuild = true) → w.partDir = some c →
      Pkg.source pkg cfg env w = Pkg.source pkg cfg env { w with partDir := none }) ∧
    (∀ (pkg : Pkg) (cfg : Config) (env : SourceEnv) (w : SourceWorld) (files : List String),
      cfg.rebuild = true → w.completeDir = some files →
      Pkg.source pkg cfg env w = Pkg.source pkg cfg env { w with completeDir := none }) ∧
    (∀ (pkg : Pkg) (cfg : Config) (env : SourceEnv) (w w1 : SourceWorld) (tr : List Cmd)
      (d : String), w.completeDir = none → w.partDir = none →
      Pkg.source pkg cfg env w = (w1, tr, .ok d) →
      w1 = ⟨some (["original", "patched"] ++ env.builtFiles), none, none⟩ ∧
      d = cfg.dir ++ "/source" ++ "/" ++ (pkg.name ++ "_" ++
        new_version cfg.version cfg.arch.level ++ ".dsc") ∧
      (pkg.name ++ "_" ++ new_version cfg.version cfg.arch.level ++ ".dsc") ∈
        ["original", "patched"] ++ env.builtFiles) ∧
    (∀ (dsc arch : String) (cfg : Config) (w : SbuildWorld) (c : List String),
      cfg.retry = false → (w.completeDir = none ∨ cfg.rebuild = true) → w.partDir = some c →
      Pkg.sbuild_thread dsc arch cfg w =
        ({ w with completeDir := none },
         .ok (.failedEarly ⟨.alreadyExists,
           cfg.dir ++ "/sbuild-" ++ arch ++
             ".partial already exists, build is in progress or already failed"⟩))) ∧
    (∀ (e : IoError) (env : SbuildEnv) (w : SbuildWorld),
      sbuildJoin (.failedEarly e) env w = (w, [], .error e)) ∧
    (∀ (dsc arch : String) (cfg : Config) (w : SbuildWorld) (c : List String),
      cfg.retry = true → (w.completeDir = none ∨ cfg.rebuild = true) → w.partDir = some c →
      Pkg.sbuild_thread dsc arch cfg w =
        Pkg.sbuild_thread dsc arch cfg { w with partDir := none }) ∧
    (∀ (dsc arch : String) (cfg : Config) (w : SbuildWorld) (files : List String),
      cfg.rebuild = true → w.completeDir = some files →
      Pkg.sbuild_thread dsc arch cfg w =
        Pkg.sbuild_thread dsc arch cfg { w with completeDir := none }) ∧
    (∀ (dsc arch : String) (cfg : Config) (w : SbuildWorld),
      w.completeDir = none → w.partDir = none →
      Pkg.sbuild_thread dsc arch cfg w =
        ({ w with partDir := some ["sbuild.conf"] },
         .ok (.run (cfg.dir ++ "/sbuild-" ++ arch ++ ".partial")
           (cfg.dir ++ "/sbuild-" ++ arch)
           (Cmd.sbuild arch (arch == "amd64") dsc
             (cfg.dir ++ "/sbuild-" ++ arch ++ ".partial")))) ∧
      (∀ env : SbuildEnv, env.sbuildStatus = 0 →
        sbuildJoin (.run (cfg.dir ++ "/sbuild-" ++ arch ++ ".partial")
            (cfg.dir ++ "/sbuild-" ++ arch)
            (Cmd.sbuild arch (arch == "amd64") dsc
              (cfg.dir ++ "/sbuild-" ++ arch ++ ".partial")))
          env { w with partDir := some ["sbuild.conf"] } =
          (⟨some (["sbuild.conf"] ++ env.artifacts), none⟩,
           [Cmd.sbuild arch (arch == "amd64") dsc
             (cfg.dir ++ "/sbuild-" ++ arch ++ ".partial")],
           .ok (cfg.dir ++ "/sbuild-" ++ arch)))) :=
  ⟨source_row_inprogress, source_row_retry, source_row_rebuild, source_row_commit,
   sbuild_row_inprogress, sbuildJoin_failedEarly, sbuild_row_retry, sbuild_row_rebuild,
   sbuild_row_commit⟩

/-- Witness for C1: each transition row applied at concrete stage states of
the sample package. -/
theorem stage_state_machine_witness :
    Pkg.source fooPkg fooCfg okSrcEnv ⟨none, some ["original"], none⟩ =
      (⟨none, some ["original"], none⟩, [],
       .error ⟨.alreadyExists,
         fooCfg.dir ++ "/source.partial already exists, build is in progress or already failed"⟩) ∧
    Pkg.source fooPkg { fooCfg with retry := true } okSrcEnv ⟨none, some ["original"], none⟩ =
      Pkg.source fooPkg { fooCfg with retry := true } okSrcEnv ⟨none, none, none⟩ ∧
    Pkg.source fooPkg { fooCfg with rebuild := true } okSrcEnv ⟨some ["stale"], none, none⟩ =
      Pkg.source fooPkg { fooCfg with rebuild := true } okSrcEnv ⟨none, none, none⟩ ∧
    (⟨some ["original", "patched", "foo_1.0-1popopt3.dsc", "foo_1.0-1popopt3.tar.xz"],
        none, none⟩ : SourceWorld) =
      ⟨some (["original", "patched"] ++ okSrcEnv.builtFiles), none, none⟩ ∧
    "/build/x86-64-v3/focal/foo/source/foo_1.0-1popopt3.dsc" =
      fooCfg.dir ++ "/source" ++ "/" ++ (fooPkg.name ++ "_" ++
        new_version fooCfg.version fooCfg.arch.level ++ ".dsc") ∧
    Pkg.sbuild_thread "s.dsc" "amd64" fooCfg ⟨none, some ["sbuild.conf"]⟩ =
      (⟨none, some ["sbuild.conf"]⟩,
       .ok (.failedEarly ⟨.alreadyExists,
         fooCfg.dir ++ "/sbuild-" ++ "amd64" ++
           ".partial already exists, build is in progress or already failed"⟩)) ∧
    sbuildJoin (.failedEarly ⟨.alreadyExists, "e"⟩) okSbEnv ⟨none, some ["sbuild.conf"]⟩ =
      (⟨none, some ["sbuild.conf"]⟩, [], .error ⟨.alreadyExists, "e"⟩) ∧
    Pkg.sbuild_thread "s.dsc" "amd64" { fooCfg with retry := true }
        ⟨none, some ["sbuild.conf"]⟩ =
      Pkg.sbuild_thread "s.dsc" "amd64" { fooCfg with retry := true } ⟨none, none⟩ ∧
    Pkg.sbuild_thread "s.dsc" "amd64" { fooCfg with rebuild := true } ⟨some ["old"], none⟩ =
      Pkg.sbuild_thread "s.dsc" "amd64" { fooCfg with rebuild := true } ⟨none, none⟩ ∧
    Pkg.sbuild_thread "s.dsc" "amd64" fooCfg ⟨none, none⟩ =
      (⟨none, some ["sbuild.conf"]⟩,
       .ok (.run (fooCfg.dir ++ "/sbuild-" ++ "amd64" ++ ".partial")
         (fooCfg.dir ++ "/sbuild-" ++ "amd64")
         (Cmd.sbuild "amd64" ("amd64" == "amd64") "s.dsc"
           (fooCfg.dir ++ "/sbuild-" ++ "amd64" ++ ".partial")))) ∧
    sbuildJoin (.run (fooCfg.dir ++ "/sbuild-" ++ "amd64" ++ ".partial")
        (fooCfg.dir ++ "/sbuild-" ++ "amd64")
        (Cmd.sbuild "amd64" ("amd64" == "amd64") "s.dsc"
          (fooCfg.dir ++ "/sbuild-" ++ "amd64" ++ ".partial")))
      okSbEnv ⟨none, some ["sbuild.conf"]⟩ =
      (⟨some (["sbuild.conf"] ++ okSbEnv.artifacts), none⟩,
       [Cmd.sbuild "amd64" ("amd64" == "amd64") "s.dsc"
         (fooCfg.dir ++ "/sbuild-" ++ "amd64" ++ ".partial")],
       .ok (fooCfg.dir ++ "/sbuild-" ++ "amd64")) := by
  obtain ⟨s1, s2, s3, s4, b1, bj, b2, b3, b4⟩ := stage_state_machine
  have hcommit := s4 fooPkg fooCfg okSrcEnv ⟨none, none, none⟩
    ⟨some ["original", "patched", "foo_1.0-1popopt3.dsc", "foo_1.0-1popopt3.tar.xz"],
      none, none⟩
    (Pkg.source fooPkg fooCfg okSrcEnv ⟨none, none, none⟩).2.1
    "/build/x86-64-v3/focal/foo/source/foo_1.0-1popopt3.dsc"
    rfl rfl (by decide)
  have hb4 := b4 "s.dsc" "amd64" fooCfg ⟨none, none⟩ rfl rfl
  exact ⟨s1 fooPkg fooCfg okSrcEnv ⟨none, some ["original"], none⟩ ["original"]
      rfl (Or.inl rfl) rfl,
    s2 fooPkg { fooCfg with retry := true } okSrcEnv ⟨none, some ["original"], none⟩
      ["original"] rfl (Or.inl rfl) rfl,
    s3 fooPkg { fooCfg with rebuild := true } okSrcEnv ⟨some ["stale"], none, none⟩
      ["stale"] rfl rfl,
    hcommit.1, hcommit.2.1,
    b1 "s.dsc" "amd64" fooCfg ⟨none, some ["sbuild.conf"]⟩ ["sbuild.conf"]
      rfl (Or.inl rfl) rfl,
    bj ⟨.alreadyExists, "e"⟩ okSbEnv ⟨none, some ["sbuild.conf"]⟩,
    b2 "s.dsc" "amd64" { fooCfg with retry := true } ⟨none, some ["sbuild.conf"]⟩
      ["sbuild.conf"] rfl (Or.inl rfl) rfl,
    b3 "s.dsc" "amd64" { fooCfg with rebuild := true } ⟨some ["old"], none⟩ ["old"] rfl rfl,
    hb4.1, hb4.2 okSbEnv rfl⟩

/-- C4: with rebuild=false and retry=false a second run performs no
external build work: a canonical source directory containing the
re-versioned .dsc is returned immediately with an empty command trace, a
canonical per-architecture directory yields a cached thread with an empty
trace, and after any successful run the same stage function on the
resulting world returns the identical artifact with an empty trace —
independently of the command environment, so no external command output is
even consulted. -/
theorem idempotent_rerun :
    (∀ (pkg : Pkg) (cfg : Config) (env : SourceEnv) (w : SourceWorld) (files : List String),
      cfg.rebuild = false → w.completeDir = some files →
      (pkg.name ++ "_" ++ new_version cfg.version cfg.arch.level ++ ".dsc") ∈ files →
      Pkg.source pkg cfg env w =
        (w, [], .ok (cfg.dir ++ "/source" ++ "/" ++
          (pkg.name ++ "_" ++ new_version cfg.version cfg.arch.level ++ ".dsc")))) ∧
    (∀ (dsc arch : String) (cfg : Config) (env : SbuildEnv) (w : SbuildWorld)
      (files : List String), cfg.rebuild = false → w.completeDir = some files →
      Pkg.sbuild_thread dsc arch cfg w =
        (w, .ok (.cached (cfg.dir ++ "/sbuild-" ++ arch))) ∧
      sbuildJoin (.cached (cfg.dir ++ "/sbuild-" ++ arch)) env w =
        (w, [], .ok (cfg.dir ++ "/sbuild-" ++ arch))) ∧
    (∀ (pkg : Pkg) (cfg : Config) (env env' : SourceEnv) (w w1 : SourceWorld)
      (tr : List Cmd) (d : String), cfg.rebuild = false →
      Pkg.source pkg cfg env w = (w1, tr, .ok d) →
      Pkg.source pkg cfg env' w1 = (w1, [], .ok d)) ∧
    (∀ (dsc arch : String) (cfg : Config) (env env' : SbuildEnv) (w w1 w2 : SbuildWorld)
      (sp : Spawned) (tr : List Cmd) (d : String), cfg.rebuild = false →
      Pkg.sbuild_thread dsc arch cfg w = (w1, .ok sp) →
      sbuildJoin sp env w1 = (w2, tr, .ok d) →
      Pkg.sbuild_thread dsc arch cfg w2 = (w2, .ok (.cached d)) ∧
      sbuildJoin (.cached d) env' w2 = (w2, [], .ok d)) :=
  ⟨source_row_cachehit,
   fun dsc arch cfg env w files hrb hc =>
     ⟨sbuild_row_cached dsc arch cfg w files hrb hc,
      sbuildJoin_cached (cfg.dir ++ "/sbuild-" ++ arch) env w⟩,
   fun pkg cfg env env' w w1 tr d hrb h => source_second_run pkg cfg env env' w w1 tr d hrb h,
   fun dsc arch cfg env env' w w1 w2 sp tr d hrb hT hJ =>
     sbuild_second_run dsc arch cfg env env' w w1 w2 sp tr d hrb hT hJ⟩

/-- Witness for C4: concrete cache hits and second runs of both stages,
with a different command environment on the second run. -/
theorem idempotent_rerun_witness :
    Pkg.source fooPkg fooCfg c6Env ⟨some ["foo_1.0-1popopt3.dsc"], none, none⟩ =
      (⟨some ["foo_1.0-1popopt3.dsc"], none, none⟩, [],
       .ok (fooCfg.dir ++ "/source" ++ "/" ++
         (fooPkg.name ++ "_" ++ new_version fooCfg.version fooCfg.arch.level ++ ".dsc"))) ∧
    (Pkg.sbuild_thread "s.dsc" "amd64" fooCfg ⟨some ["a.deb"], none⟩ =
      (⟨some ["a.deb"], none⟩, .ok (.cached (fooCfg.dir ++ "/sbuild-" ++ "amd64"))) ∧
     sbuildJoin (.cached (fooCfg.dir ++ "/sbuild-" ++ "amd64")) okSbEnv ⟨some ["a.deb"], none⟩ =
      (⟨some ["a.deb"], none⟩, [], .ok (fooCfg.dir ++ "/sbuild-" ++ "amd64"))) ∧
    Pkg.source fooPkg fooCfg c6Env ⟨some ["foo_1.0-1popopt3.dsc"], none, none⟩ =
      (⟨some ["foo_1.0-1popopt3.dsc"], none, none⟩, [],
       .ok "/build/x86-64-v3/focal/foo/source/foo_1.0-1popopt3.dsc") ∧
    (Pkg.sbuild_thread "s.dsc" "amd64" fooCfg ⟨some ["a.deb"], none⟩ =
      (⟨some ["a.deb"], none⟩, .ok (.cached "/build/x86-64-v3/focal/foo/sbuild-amd64")) ∧
     sbuildJoin (.cached "/build/x86-64-v3/focal/foo/sbuild-amd64") ⟨1, []⟩
        ⟨some ["a.deb"], none⟩ =
      (⟨some ["a.deb"], none⟩, [], .ok "/build/x86-64-v3/focal/foo/sbuild-amd64")) := by
  obtain ⟨i1, i2, i3, i4⟩ := idempotent_rerun
  refine ⟨i1 fooPkg fooCfg c6Env ⟨some ["foo_1.0-1popopt3.dsc"], none, none⟩
      ["foo_1.0-1popopt3.dsc"] rfl rfl (by decide),
    i2 "s.dsc" "amd64" fooCfg okSbEnv ⟨some ["a.deb"], none⟩ ["a.deb"] rfl rfl, ?_, ?_⟩
  · exact i3 fooPkg fooCfg okSrcEnv c6Env ⟨some ["foo_1.0-1popopt3.dsc"], none, none⟩
      ⟨some ["foo_1.0-1popopt3.dsc"], none, none⟩ []
      "/build/x86-64-v3/focal/foo/source/foo_1.0-1popopt3.dsc" rfl (by decide)
  · exact i4 "s.dsc" "amd64" fooCfg okSbEnv ⟨1, []⟩ ⟨some ["a.deb"], none⟩
      ⟨some ["a.deb"], none⟩ ⟨some ["a.deb"], none⟩
      (.cached "/build/x86-64-v3/focal/foo/sbuild-amd64") []
      "/build/x86-64-v3/focal/foo/sbuild-amd64" rfl (by decide) (by decide)

/-! Helper lemmas about takeWhile/dropWhile, the chunk parser and the chunk
comparison, leading to C8: the synthetic version sorts strictly higher. -/

theorem dropWhile_length_le {α : Type} (p : α → Bool) :
    ∀ l : List α, (l.dropWhile p).length ≤ l.length := by
  intro l
  induction l with
  | nil => simp [List.dropWhile]
  | cons a l ih =>
    by_cases h : p a = true
    · simp only [List.dropWhile, h]
      exact Nat.le_succ_of_le ih
    · simp only [List.dropWhile, boolNotTrue h]
      exact Nat.le_refl _

theorem takeWhile_app_all {α : Type} (p : α → Bool) :
    ∀ (A B : List α), (∀ x ∈ A, p x = true) →
      (A ++ B).takeWhile p = A ++ B.takeWhile p := by
  intro A B h
  induction A with
  | nil => simp
  | cons a A ih =>
    have ha := h a (List.mem_cons_self a A)
    simp only [List.cons_append, List.takeWhile_cons, ha, if_true]
    rw [ih (fun x hx => h x (List.mem_cons_of_mem a hx))]

theorem dropWhile_app_all {α : Type} (p : α → Bool) :
    ∀ (A B : List α), (∀ x ∈ A, p x = true) →
      (A ++ B).dropWhile p = B.dropWhile p := by
  intro A B h
  induction A with
  | nil => simp
  | cons a A ih =>
    have ha := h a (List.mem_cons_self a A)
    simp only [List.cons_append, List.dropWhile_cons, ha, if_true]
    exact ih (fun x hx => h x (List.mem_cons_of_mem a hx))

theorem takeWhile_all {α : Type} (p : α → Bool) (l : List α) (h : ∀ x ∈ l, p x = true) :
    l.takeWhile p = l := by
  have := takeWhile_app_all p l [] h
  simpa using this

theorem dropWhile_all {α : Type} (p : α → Bool) (l : List α) (h : ∀ x ∈ l, p x = true) :
    l.dropWhile p = [] := by
  have := dropWhile_app_all p l [] h
  simpa using this

theorem takeWhile_stop {α : Type} (p : α → Bool) (b : α) (l : List α) (h : p b = false) :
    (b :: l).takeWhile p = [] := by
  simp [List.takeWhile_cons, h]

theorem dropWhile_stop {α : Type} (p : α → Bool) (b : α) (l : List α) (h : p b = false) :
    (b :: l).dropWhile p = b :: l := by
  simp [List.dropWhile_cons, h]

theorem dropWhile_head_false {α : Type} (p : α → Bool) :
    ∀ (l : List α) (b : α) (l' : List α), l.dropWhile p = b :: l' → p b = false := by
  intro l
  induction l with
  | nil => intro b l' h; simp [List.dropWhile] at h
  | cons a l ih =>
    intro b l' h
    by_cases ha : p a = true
    · rw [List.dropWhile_cons, if_pos (by simp [ha])] at h
      exact ih b l' h
    · rw [List.dropWhile_cons, if_neg (by simp [boolNotTrue ha])] at h
      cases h
      exact boolNotTrue ha

theorem takeWhile_app_stopin {α : Type} (p : α → Bool) :
    ∀ (A B : List α), (∃ x ∈ A, p x = false) →
      (A ++ B).takeWhile p = A.takeWhile p ∧
      (A ++ B).dropWhile p = A.dropWhile p ++ B := by
  intro A
  induction A with
  | nil =>
    intro B h
    obtain ⟨x, hx, _⟩ := h
    exact absurd hx (List.not_mem_nil x)
  | cons a A ih =>
    intro B h
    by_cases ha : p a = true
    · obtain ⟨x, hx, hpx⟩ := h
      have hxA : x ∈ A := by
        rcases List.mem_cons.mp hx with rfl | hx'
        · rw [ha] at hpx; exact absurd hpx (by simp)
        · exact hx'
      obtain ⟨h1, h2⟩ := ih B ⟨x, hxA, hpx⟩
      constructor
      · simp only [List.cons_append, List.takeWhile_cons, ha, if_true]
        rw [h1]
      · simp only [List.cons_append, List.dropWhile_cons, ha, if_true]
        rw [h2]
    · have ha' := boolNotTrue ha
      constructor
      · rw [List.cons_append, takeWhile_stop p a (A ++ B) ha', takeWhile_stop p a A ha']
      · rw [List.cons_append, dropWhile_stop p a (A ++ B) ha', dropWhile_stop p a A ha']
        rfl

theorem dropWhile_ne_nil {α : Type} (p : α → Bool) :
    ∀ (A : List α), (∃ x ∈ A, p x = false) → A.dropWhile p ≠ [] := by
  intro A
  induction A with
  | nil =>
    intro h
    obtain ⟨x, hx, _⟩ := h
    exact absurd hx (List.not_mem_nil x)
  | cons a A ih =>
    intro h
    by_cases ha : p a = true
    · obtain ⟨x, hx, hpx⟩ := h
      have hxA : x ∈ A := by
        rcases List.mem_cons.mp hx with rfl | hx'
        · rw [ha] at hpx; exact absurd hpx (by simp)
        · exact hx'
      rw [List.dropWhile_cons, if_pos (by simp [ha])]
      exact ih ⟨x, hxA, hpx⟩
    · rw [dropWhile_stop p a A (boolNotTrue ha)]
      simp

theorem parseChunksF_fuel :
    ∀ n : Nat, ∀ l : List Char, l.length ≤ n → parseChunksF n l = parseChunks l := by
  intro n
  induction n using Nat.strong_induction_on with
  | _ n ih =>
    intro l hl
    cases n with
    | zero =>
      cases l with
      | nil => rfl
      | cons c cs => simp at hl
    | succ n =>
      cases l with
      | nil => rfl
      | cons c cs =>
        have hrest : (((c :: cs).dropWhile (fun x => !x.isDigit)).dropWhile
            Char.isDigit).length ≤ cs.length := by
          by_cases hc : c.isDigit = true
          · rw [dropWhile_stop (fun x => !x.isDigit) c cs (by simp [hc])]
            rw [List.dropWhile_cons, if_pos (by simp [hc])]
            exact dropWhile_length_le Char.isDigit cs
          · rw [List.dropWhile_cons, if_pos (by simp [boolNotTrue hc])]
            exact Nat.le_trans (dropWhile_length_le Char.isDigit _)
              (dropWhile_length_le _ cs)
        simp only [parseChunksF]
        have hl' : cs.length ≤ n := by simpa using hl
        rw [ih n (Nat.lt_succ_self n) _ (Nat.le_trans hrest hl')]
        show _ = parseChunksF (c :: cs).length (c :: cs)
        simp only [List.length_cons, parseChunksF]
        rw [ih cs.length (Nat.lt_succ_of_le hl') _ hrest]

theorem parseChunks_cons (c : Char) (cs : List Char) :
    parseChunks (c :: cs) =
      ((c :: cs).takeWhile (fun x => !x.isDigit),
       natOfDigits (((c :: cs).dropWhile (fun x => !x.isDigit)).takeWhile Char.isDigit)) ::
      parseChunks (((c :: cs).dropWhile (fun x => !x.isDigit)).dropWhile Char.isDigit) := by
  show parseChunksF (c :: cs).length (c :: cs) = _
  simp only [List.length_cons, parseChunksF]
  congr 1
  apply parseChunksF_fuel
  by_cases hc : c.isDigit = true
  · rw [dropWhile_stop (fun x => !x.isDigit) c cs (by simp [hc])]
    rw [List.dropWhile_cons, if_pos (by simp [hc])]
    exact dropWhile_length_le Char.isDigit cs
  · rw [List.dropWhile_cons, if_pos (by simp [boolNotTrue hc])]
    exact Nat.le_trans (dropWhile_length_le Char.isDigit _) (dropWhile_length_le _ cs)

theorem intCmp_self (x : Int) : intCmp x x = .eq := by
  simp [intCmp]

theorem natCmp_self (n : Nat) : natCmp n n = .eq := by
  simp [natCmp]

theorem cmpNDnil_pos (t0 : Char) (ts : List Char) (h : 0 < charOrder t0) :
    cmpNDnil (t0 :: ts) = .lt := by
  simp [cmpNDnil, intCmp, h]

theorem cmpND_refl : ∀ a : List Char, cmpND a a = .eq := by
  intro a
  induction a with
  | nil => rfl
  | cons c cs ih => simp [cmpND, intCmp_self, ih]

theorem cmpND_nil_gt (t0 : Char) (ts : List Char) (h : 0 < charOrder t0) :
    cmpND (t0 :: ts) [] = .gt := by
  show (cmpNDnil (t0 :: ts)).swap = .gt
  rw [cmpNDnil_pos t0 ts h]
  rfl

theorem cmpND_append_gt (t0 : Char) (ts : List Char) (h : 0 < charOrder t0) :
    ∀ A : List Char, cmpND (A ++ t0 :: ts) A = .gt := by
  intro A
  induction A with
  | nil => exact cmpND_nil_gt t0 ts h
  | cons c A ih => simp [cmpND, intCmp_self, ih]

theorem cmpChunks_cons_eq (a : List Char) (m : Nat)
    (xs ys : List (List Char × Nat)) :
    cmpChunks ((a, m) :: xs) ((a, m) :: ys) = cmpChunks xs ys := by
  simp [cmpChunks, cmpND_refl, natCmp_self]

theorem cmpChunks_cons_gt (a b : List Char) (m n : Nat)
    (xs ys : List (List Char × Nat)) (h : cmpND a b = .gt) :
    cmpChunks ((a, m) :: xs) ((b, n) :: ys) = .gt := by
  simp [cmpChunks, h]

theorem cmpChunks_pos_nil (nd : List Char) (v : Nat) (xs : List (List Char × Nat))
    (h : cmpNDnil nd = .lt) :
    cmpChunks ((nd, v) :: xs) [] = .gt := by
  cases nd with
  | nil => simp [cmpNDnil] at h
  | cons t0 ts =>
    simp only [cmpChunks, cmpChunksNil, cmpND]
    rw [h]
    rfl

theorem cmpChunks_refl : ∀ xs : List (List Char × Nat), cmpChunks xs xs = .eq := by
  intro xs
  induction xs with
  | nil => rfl
  | cons x xs ih =>
    obtain ⟨a, m⟩ := x
    rw [cmpChunks_cons_eq]
    exact ih

theorem isDigit_ne_colon (c : Char) (h : c.isDigit = true) : c ≠ ':' := by
  rintro rfl
  exact absurd h (by decide)

theorem isDigit_ne_hyphen (c : Char) (h : c.isDigit = true) : c ≠ '-' := by
  rintro rfl
  exact absurd h (by decide)

theorem digitChar_isDigit (m : Nat) (h : m < 10) : (Nat.digitChar m).isDigit = true := by
  interval_cases m <;> decide

theorem toDigitsCore_digits :
    ∀ (fuel n : Nat) (ds : List Char), (∀ c ∈ ds, c.isDigit = true) →
      ∀ c ∈ Nat.toDigitsCore 10 fuel n ds, c.isDigit = true := by
  intro fuel
  induction fuel with
  | zero => intro n ds h c hc; exact h c hc
  | succ fuel ih =>
    intro n ds h c hc
    have hd : (Nat.digitChar (n % 10)).isDigit = true :=
      digitChar_isDigit _ (Nat.mod_lt n (by norm_num))
    have hds : ∀ c' ∈ Nat.digitChar (n % 10) :: ds, c'.isDigit = true := by
      intro c' hc'
      rcases List.mem_cons.mp hc' with rfl | hc''
      · exact hd
      · exact h c' hc''
    simp only [Nat.toDigitsCore] at hc
    by_cases h0 : n / 10 = 0
    · rw [if_pos h0] at hc
      exact hds c hc
    · rw [if_neg h0] at hc
      exact ih (n / 10) (Nat.digitChar (n % 10) :: ds) hds c hc

theorem toString_nat_digits (n : Nat) : ∀ c ∈ (toString n).data, c.isDigit = true := by
  intro c hc
  have h2 : (toString n).data = Nat.toDigitsCore 10 (n + 1) n [] := rfl
  rw [h2] at hc
  exact toDigitsCore_digits (n + 1) n []
    (fun c' hc' => absurd hc' (List.not_mem_nil c')) c hc

theorem chunk_rest_le (c : Char) (cs : List Char) :
    (((c :: cs).dropWhile (fun x => !x.isDigit)).dropWhile Char.isDigit).length ≤
      cs.length := by
  by_cases hc : c.isDigit = true
  · rw [dropWhile_stop (fun x => !x.isDigit) c cs (by simp [hc])]
    rw [List.dropWhile_cons, if_pos (by simp [hc])]
    exact dropWhile_length_le Char.isDigit cs
  · rw [List.dropWhile_cons, if_pos (by simp [boolNotTrue hc])]
    exact Nat.le_trans (dropWhile_length_le Char.isDigit _) (dropWhile_length_le _ cs)

theorem parseChunks_eq_of (l : List Char) (hl : l ≠ []) :
    parseChunks l =
      (l.takeWhile (fun x => !x.isDigit),
       natOfDigits ((l.dropWhile (fun x => !x.isDigit)).takeWhile Char.isDigit)) ::
      parseChunks ((l.dropWhile (fun x => !x.isDigit)).dropWhile Char.isDigit) := by
  cases l with
  | nil => exact absurd rfl hl
  | cons c cs => exact parseChunks_cons c cs

theorem takeWhile_nondigit_digits (dT : List Char) (hdT : ∀ c ∈ dT, c.isDigit = true) :
    dT.takeWhile (fun x => !x.isDigit) = [] := by
  cases dT with
  | nil => rfl
  | cons d ds => exact takeWhile_stop _ d ds (by simp [hdT d (List.mem_cons_self d ds)])

theorem parseChunks_tag (t0 : Char) (ndR dT : List Char)
    (ht0d : t0.isDigit = false)
    (hnd : ∀ c ∈ ndR, c.isDigit = false)
    (hdT : ∀ c ∈ dT, c.isDigit = true) :
    parseChunks ((t0 :: ndR) ++ dT) = [(t0 :: ndR, natOfDigits dT)] := by
  have hmem : ∀ x ∈ t0 :: ndR, (!x.isDigit) = true := by
    intro x hx
    rcases List.mem_cons.mp hx with rfl | hx'
    · simp [ht0d]
    · simp [hnd x hx']
  have htw : ((t0 :: ndR) ++ dT).takeWhile (fun x => !x.isDigit) = t0 :: ndR := by
    rw [takeWhile_app_all _ _ _ hmem, takeWhile_nondigit_digits dT hdT, List.append_nil]
  have hdw : ((t0 :: ndR) ++ dT).dropWhile (fun x => !x.isDigit) = dT := by
    rw [dropWhile_app_all _ _ _ hmem]
    cases dT with
    | nil => rfl
    | cons d ds => exact dropWhile_stop _ d ds (by simp [hdT d (List.mem_cons_self d ds)])
  rw [parseChunks_eq_of _ (by simp), htw, hdw, takeWhile_all Char.isDigit dT hdT,
    dropWhile_all Char.isDigit dT hdT]
  rfl

theorem mem_takeWhile_pred {α : Type} (p : α → Bool) :
    ∀ (l : List α) (x : α), x ∈ l.takeWhile p → p x = true := by
  intro l
  induction l with
  | nil => intro x hx; simp [List.takeWhile] at hx
  | cons a l ih =>
    intro x hx
    by_cases ha : p a = true
    · rw [List.takeWhile_cons, if_pos (by simp [ha])] at hx
      rcases List.mem_cons.mp hx with rfl | hx'
      · exact ha
      · exact ih x hx'
    · rw [takeWhile_stop p a l (boolNotTrue ha)] at hx
      exact absurd hx (List.not_mem_nil x)

theorem cmpChunks_append_tag (t0 : Char) (ndR dT : List Char)
    (ht0 : 0 < charOrder t0) (ht0d : t0.isDigit = false)
    (hnd : ∀ c ∈ ndR, c.isDigit = false)
    (hdT : ∀ c ∈ dT, c.isDigit = true) :
    ∀ (n : Nat) (r : List Char), r.length ≤ n →
      cmpChunks (parseChunks (r ++ ((t0 :: ndR) ++ dT))) (parseChunks r) = .gt := by
  have htagmem : ∀ x ∈ t0 :: ndR, (!x.isDigit) = true := by
    intro x hx
    rcases List.mem_cons.mp hx with rfl | hx'
    · simp [ht0d]
    · simp [hnd x hx']
  have hKnil : cmpChunks (parseChunks ((t0 :: ndR) ++ dT)) (parseChunks []) = .gt := by
    rw [parseChunks_tag t0 ndR dT ht0d hnd hdT]
    exact cmpChunks_pos_nil _ _ _ (cmpNDnil_pos t0 ndR ht0)
  intro n
  induction n with
  | zero =>
    intro r hr
    have : r = [] := List.eq_nil_of_length_eq_zero (Nat.le_zero.mp hr)
    subst this
    simpa using hKnil
  | succ n ihn =>
    intro r hr
    cases r with
    | nil => simpa using hKnil
    | cons c cs =>
      have hcs : cs.length ≤ n := by
        simp only [List.length_cons] at hr
        omega
      have hAmem : ∀ x ∈ (c :: cs).takeWhile (fun x => !x.isDigit), (!x.isDigit) = true :=
        fun x hx => mem_takeWhile_pred _ _ x hx
      have hAB : (c :: cs).takeWhile (fun x => !x.isDigit) ++
          (c :: cs).dropWhile (fun x => !x.isDigit) = c :: cs :=
        List.takeWhile_append_dropWhile (fun x => !x.isDigit) (c :: cs)
      have hDmem : ∀ x ∈ ((c :: cs).dropWhile (fun x => !x.isDigit)).takeWhile Char.isDigit,
          x.isDigit = true := fun x hx => mem_takeWhile_pred _ _ x hx
      have hDR : (((c :: cs).dropWhile (fun x => !x.isDigit)).takeWhile Char.isDigit) ++
          (((c :: cs).dropWhile (fun x => !x.isDigit)).dropWhile Char.isDigit) =
          (c :: cs).dropWhile (fun x => !x.isDigit) :=
        List.takeWhile_append_dropWhile Char.isDigit ((c :: cs).dropWhile (fun x => !x.isDigit))
      have hRle := chunk_rest_le c cs
      by_cases hR : ((c :: cs).dropWhile (fun x => !x.isDigit)).dropWhile Char.isDigit = []
      · by_cases hD : ((c :: cs).dropWhile (fun x => !x.isDigit)).takeWhile Char.isDigit = []
        · -- r is all non-digits: the tag's letters extend r's final chunk
          have hB : (c :: cs).dropWhile (fun x => !x.isDigit) = [] := by
            rw [← hDR, hD, hR]
            rfl
          have hA : (c :: cs).takeWhile (fun x => !x.isDigit) = c :: cs := by
            conv_rhs => rw [← hAB, hB, List.append_nil]
          have hallnd : ∀ x ∈ c :: cs, (!x.isDigit) = true := by
            rw [← hA]
            exact hAmem
          have htw2 : ((c :: cs) ++ ((t0 :: ndR) ++ dT)).takeWhile (fun x => !x.isDigit) =
              (c :: cs) ++ (t0 :: ndR) := by
            rw [takeWhile_app_all _ _ _ hallnd, takeWhile_app_all _ _ _ htagmem,
              takeWhile_nondigit_digits dT hdT, List.append_nil]
          have hdw2 : ((c :: cs) ++ ((t0 :: ndR) ++ dT)).dropWhile (fun x => !x.isDigit) =
              dT := by
            rw [dropWhile_app_all _ _ _ hallnd, dropWhile_app_all _ _ _ htagmem]
            cases dT with
            | nil => rfl
            | cons d ds =>
              exact dropWhile_stop _ d ds (by simp [hdT d (List.mem_cons_self d ds)])
          rw [parseChunks_eq_of ((c :: cs) ++ ((t0 :: ndR) ++ dT)) (by simp), htw2, hdw2,
            takeWhile_all Char.isDigit dT hdT, dropWhile_all Char.isDigit dT hdT,
            parseChunks_eq_of (c :: cs) (by simp), hA, hB]
          exact cmpChunks_cons_gt _ _ _ _ _ _ (cmpND_append_gt t0 ndR ht0 (c :: cs))
        · -- r ends in a digit run: the tag starts a fresh chunk after it
          obtain ⟨d0, D', hD0⟩ := List.exists_cons_of_ne_nil hD
          have hd0 : d0.isDigit = true :=
            hDmem d0 (by rw [hD0]; exact List.mem_cons_self d0 D')
          have hB : (c :: cs).dropWhile (fun x => !x.isDigit) =
              ((c :: cs).dropWhile (fun x => !x.isDigit)).takeWhile Char.isDigit := by
            conv_lhs => rw [← hDR]
            rw [hR, List.append_nil]
          have htw2 : ((c :: cs) ++ ((t0 :: ndR) ++ dT)).takeWhile (fun x => !x.isDigit) =
              (c :: cs).takeWhile (fun x => !x.isDigit) := by
            conv_lhs => rw [← hAB, List.append_assoc,
              takeWhile_app_all _ _ _ hAmem, hB, hD0, List.cons_append,
              takeWhile_stop _ d0 _ (by simp [hd0]), List.append_nil]
          have hdw2 : ((c :: cs) ++ ((t0 :: ndR) ++ dT)).dropWhile (fun x => !x.isDigit) =
              (((c :: cs).dropWhile (fun x => !x.isDigit)).takeWhile Char.isDigit) ++
                ((t0 :: ndR) ++ dT) := by
            conv_lhs => rw [← hAB, List.append_assoc,
              dropWhile_app_all _ _ _ hAmem, hB, hD0, List.cons_append,
              dropWhile_stop _ d0 _ (by simp [hd0]), ← List.cons_append, ← hD0]
          have htw3 : (((((c :: cs).dropWhile (fun x => !x.isDigit)).takeWhile Char.isDigit))
              ++ ((t0 :: ndR) ++ dT)).takeWhile Char.isDigit =
              (((c :: cs).dropWhile (fun x => !x.isDigit)).takeWhile Char.isDigit) := by
            rw [takeWhile_app_all _ _ _ hDmem, List.cons_append,
              takeWhile_stop _ t0 _ ht0d, List.append_nil]
          have hdw3 : (((((c :: cs).dropWhile (fun x => !x.isDigit)).takeWhile Char.isDigit))
              ++ ((t0 :: ndR) ++ dT)).dropWhile Char.isDigit = (t0 :: ndR) ++ dT := by
            rw [dropWhile_app_all _ _ _ hDmem, List.cons_append,
              dropWhile_stop _ t0 _ ht0d]
          rw [parseChunks_eq_of ((c :: cs) ++ ((t0 :: ndR) ++ dT)) (by simp), htw2, hdw2,
            htw3, hdw3, parseChunks_tag t0 ndR dT ht0d hnd hdT,
            parseChunks_eq_of (c :: cs) (by simp), hR]
          rw [cmpChunks_cons_eq]
          exact cmpChunks_pos_nil _ _ _ (cmpNDnil_pos t0 ndR ht0)
      · -- r has more chunks after its first: peel the first chunk and recurse
        obtain ⟨r0, R', hR0⟩ := List.exists_cons_of_ne_nil hR
        have hr0 : r0.isDigit = false :=
          dropWhile_head_false Char.isDigit _ r0 R' hR0
        have hBne : (c :: cs).dropWhile (fun x => !x.isDigit) ≠ [] := by
          intro hB
          rw [hB] at hR
          exact hR rfl
        obtain ⟨b0, B', hB0⟩ := List.exists_cons_of_ne_nil hBne
        have hb0 : (!b0.isDigit) = false :=
          dropWhile_head_false (fun x => !x.isDigit) (c :: cs) b0 B' hB0
        have htw2 : ((c :: cs) ++ ((t0 :: ndR) ++ dT)).takeWhile (fun x => !x.isDigit) =
            (c :: cs).takeWhile (fun x => !x.isDigit) := by
          conv_lhs => rw [← hAB, List.append_assoc,
            takeWhile_app_all _ _ _ hAmem, hB0, List.cons_append,
            takeWhile_stop _ b0 _ hb0, List.append_nil]
        have hdw2 : ((c :: cs) ++ ((t0 :: ndR) ++ dT)).dropWhile (fun x => !x.isDigit) =
            ((c :: cs).dropWhile (fun x => !x.isDigit)) ++ ((t0 :: ndR) ++ dT) := by
          conv_lhs => rw [← hAB, List.append_assoc,
            dropWhile_app_all _ _ _ hAmem, hB0, List.cons_append,
            dropWhile_stop _ b0 _ hb0, ← List.cons_append, ← hB0]
        have htw3 : (((c :: cs).dropWhile (fun x => !x.isDigit)) ++
            ((t0 :: ndR) ++ dT)).takeWhile Char.isDigit =
            ((c :: cs).dropWhile (fun x => !x.isDigit)).takeWhile Char.isDigit := by
          conv_lhs => rw [← hDR, List.append_assoc,
            takeWhile_app_all _ _ _ hDmem, hR0, List.cons_append,
            takeWhile_stop _ r0 _ hr0, List.append_nil]
        have hdw3 : (((c :: cs).dropWhile (fun x => !x.isDigit)) ++
            ((t0 :: ndR) ++ dT)).dropWhile Char.isDigit =
            (((c :: cs).dropWhile (fun x => !x.isDigit)).dropWhile Char.isDigit) ++
              ((t0 :: ndR) ++ dT) := by
          conv_lhs => rw [← hDR, List.append_assoc,
            dropWhile_app_all _ _ _ hDmem, hR0, List.cons_append,
            dropWhile_stop _ r0 _ hr0, ← List.cons_append, ← hR0]
        rw [parseChunks_eq_of ((c :: cs) ++ ((t0 :: ndR) ++ dT)) (by simp), htw2, hdw2,
          htw3, hdw3, parseChunks_eq_of (c :: cs) (by simp)]
        rw [cmpChunks_cons_eq]
        exact ihn _ (Nat.le_trans hRle hcs)

theorem epochSplit_append (v tag : List Char) (htag : ':' ∉ tag) :
    epochSplit (v ++ tag) = ((epochSplit v).1, (epochSplit v).2 ++ tag) := by
  by_cases h : ':' ∈ v
  · have hmem : ':' ∈ v ++ tag := List.mem_append_left tag h
    have hwit : ∃ x ∈ v, (fun c => c != ':') x = false := ⟨':', h, by simp⟩
    obtain ⟨htw, hdw⟩ := takeWhile_app_stopin (fun c => c != ':') v tag hwit
    have hne := dropWhile_ne_nil (fun c => c != ':') v hwit
    obtain ⟨x, xs, hx⟩ := List.exists_cons_of_ne_nil hne
    simp only [epochSplit, if_pos h, if_pos hmem]
    rw [htw, hdw, hx]
    rfl
  · have hmemn : ':' ∉ v ++ tag := by
      intro hc
      rcases List.mem_append.mp hc with hc | hc
      · exact h hc
      · exact htag hc
    simp only [epochSplit, if_neg h, if_neg hmemn]

theorem revSplit_append_mem (ra tag : List Char) (htag : '-' ∉ tag) (h : '-' ∈ ra) :
    revSplit (ra ++ tag) = ((revSplit ra).1, (revSplit ra).2 ++ tag) := by
  have hmem : '-' ∈ ra ++ tag := List.mem_append_left tag h
  have htagrev : ∀ x ∈ tag.reverse, (fun c => c != '-') x = true := by
    intro x hx
    simp only [bne_iff_ne, ne_eq, decide_eq_true_eq]
    intro hc
    exact htag (hc ▸ List.mem_reverse.mp hx)
  simp only [revSplit, if_pos h, if_pos hmem]
  rw [List.reverse_append, takeWhile_app_all _ _ _ htagrev, dropWhile_app_all _ _ _ htagrev,
    List.reverse_append, List.reverse_reverse]

theorem revSplit_append_not (ra tag : List Char) (htag : '-' ∉ tag) (h : '-' ∉ ra) :
    revSplit (ra ++ tag) = (ra ++ tag, []) := by
  have hmemn : '-' ∉ ra ++ tag := by
    intro hc
    rcases List.mem_append.mp hc with hc | hc
    · exact h hc
    · exact htag hc
  simp only [revSplit, if_neg hmemn]

theorem revSplit_not (ra : List Char) (h : '-' ∉ ra) : revSplit ra = (ra, []) := by
  simp only [revSplit, if_neg h]

theorem debCmp_new_version (version : String) (level : Nat) :
    debCmp (new_version version level) version = .gt := by
  have hdata : (new_version version level).data =
      version.data ++ (('p' :: ['o', 'p', 'o', 'p', 't']) ++ (toString level).data) := by
    show (version ++ "popopt" ++ toString level).data = _
    rw [String.data_append, String.data_append, List.append_assoc]
  have hK := cmpChunks_append_tag 'p' ['o', 'p', 'o', 'p', 't'] (toString level).data
    (by decide) (by decide) (by decide) (toString_nat_digits level)
  have htagc : ':' ∉ ('p' :: ['o', 'p', 'o', 'p', 't']) ++ (toString level).data := by
    intro hc
    rcases List.mem_append.mp hc with hc | hc
    · exact absurd hc (by decide)
    · exact isDigit_ne_colon ':' (toString_nat_digits level ':' hc) rfl
  have htagh : '-' ∉ ('p' :: ['o', 'p', 'o', 'p', 't']) ++ (toString level).data := by
    intro hc
    rcases List.mem_append.mp hc with hc | hc
    · exact absurd hc (by decide)
    · exact isDigit_ne_hyphen '-' (toString_nat_digits level '-' hc) rfl
  simp only [debCmp, hdata]
  rw [epochSplit_append version.data _ htagc]
  by_cases hmem : '-' ∈ (epochSplit version.data).2
  · rw [revSplit_append_mem _ _ htagh hmem]
    simp only [natCmp_self, cmpChunks_refl]
    exact hK _ _ (Nat.le_refl _)
  · rw [revSplit_append_not _ _ htagh hmem, revSplit_not _ hmem]
    simp only [natCmp_self]
    rw [hK _ _ (Nat.le_refl ((epochSplit version.data).2.length))]

/-- C8 (spec-modelled for the dpkg ordering and the Arch level field): the
synthetic version of src/pkg.rs line 78 is the upstream version with the
vendor tag "popopt" and the architecture tier's numeric level appended; it
sorts strictly higher than the upstream version under packaging version
ordering; and it is stable: the same version and level always yield the
identical string. -/
theorem synthetic_version (version : String) (level : Nat) :
    new_version version level = version ++ "popopt" ++ toString level ∧
    debGT (new_version version level) version = true ∧
    (∀ (version' : String) (level' : Nat), version = version' → level = level' →
      new_version version level = new_version version' level') := by
  refine ⟨rfl, ?_, ?_⟩
  · show (debCmp (new_version version level) version == .gt) = true
    rw [debCmp_new_version]
    rfl
  · intro version' level' h1 h2
    rw [h1, h2]

/-- Witness for C8 at a concrete version and level. -/
theorem synthetic_version_witness :
    new_version "1.0-1" 3 = "1.0-1" ++ "popopt" ++ toString 3 ∧
    debGT (new_version "1.0-1" 3) "1.0-1" = true ∧
    new_version "1.0-1" 3 = new_version "1.0-1" 3 :=
  ⟨(synthetic_version "1.0-1" 3).1, (synthetic_version "1.0-1" 3).2.1,
   (synthetic_version "1.0-1" 3).2.2 "1.0-1" 3 rfl rfl⟩

end PopOpt
